import Mathlib

/-!
Verification of the Notion MCP server's response transformer
(`src/openapi-mcp-server/mcp/transformer.ts`), error taxonomy
(`src/openapi-mcp-server/mcp/errors.ts`) and error classifier
(`mapNotionErrorToMCPError` in `src/openapi-mcp-server/mcp/proxy.ts`),
as a shallow embedding in Lean.

JavaScript runtime values are modelled by the inductive type `Json`
(with an explicit `undefined`), and the few JavaScript behaviours the
code relies on (truthiness, member access throwing on `null`/`undefined`,
`Object.entries`, the `in` operator, `parseInt`, string coercion) are
modelled by explicit helpers.  Code that can throw is modelled in
`Except String`; a `.error` value corresponds to a thrown exception.

Modelling notes, to keep the embedding honest about its corners:
* numbers are modelled as `Int` (no claim in scope depends on
  fractional values or floating-point formatting); `NaN` is modelled
  only where it can actually arise here, namely as `parseInt` output
  (`JsNum.nan`) — JSON response bodies cannot contain `NaN`;
* the `length` property of arrays and strings is not modelled (no code
  path under verification reads it);
* the transformer's recursion is expressed with an explicit fuel
  parameter so that every function is structurally recursive and
  computable by kernel reduction; the public wrapper supplies fuel
  that is proven sufficient (`transformReducedF_ok_of_safe`), and the
  sentinel `.error "FUEL"` is distinct from every modelled JavaScript
  exception.
-/

set_option maxHeartbeats 1000000

namespace NotionMCP

/-- JavaScript runtime value, as produced by JSON parsing plus the
`undefined` value (absent object fields read as `undefined`). -/
inductive Json where
  | null : Json
  | undefined : Json
  | bool (b : Bool) : Json
  | num (n : Int) : Json
  | str (s : String) : Json
  | arr (elems : List Json) : Json
  | obj (fields : List (String × Json)) : Json
deriving Inhabited

/-- JavaScript truthiness of a value. -/
def truthy : Json → Bool
  | .null => false
  | .undefined => false
  | .bool b => b
  | .num n => n != 0
  | .str s => s != ""
  | .arr _ => true
  | .obj _ => true

/-- Test for typeof v being object with v not null: true exactly for arrays
and plain objects in this model. -/
def isObjOrArr : Json → Bool
  | .arr _ => true
  | .obj _ => true
  | _ => false

/-- First-match association-list lookup (JavaScript objects cannot carry
duplicate keys, so on faithful inputs the list is duplicate-free). -/
def lookupField (fs : List (String × Json)) (k : String) : Option Json :=
  (fs.find? (fun kv => kv.1 == k)).map (fun kv => kv.2)

/-- Key-presence test on an object field list (the JavaScript in-operator):
present keys count even when the stored value is `undefined`. -/
def jsHasFieldL (fs : List (String × Json)) (k : String) : Bool :=
  (lookupField fs k).isSome

/-- JavaScript property assignment o[k] = v on an object built from
scratch: an existing key is updated in place, a new key is appended. -/
def setField : List (String × Json) → String → Json → List (String × Json)
  | [], k, v => [(k, v)]
  | (k0, v0) :: fs, k, v =>
    if k0 == k then (k0, v) :: fs else (k0, v0) :: setField fs k v

/-- Digit-string accumulator used by the `parseInt` and index models. -/
def digitsToNatAux : List Char → Nat → Nat
  | [], acc => acc
  | c :: cs, acc => digitsToNatAux cs (acc * 10 + (c.toNat - '0'.toNat))

/-- A string that is the canonical decimal representation of an array
index (this is how JavaScript decides whether a property key addresses
an array element). -/
def canonicalIndex (k : String) : Option Nat :=
  let cs := k.toList
  if cs.isEmpty then none
  else if cs.all Char.isDigit then
    let n := digitsToNatAux cs 0
    if toString n == k then some n else none
  else none

/-- Member access v[k] for a receiver already known not to be
`null`/`undefined`: field lookup on objects (absent keys give
`undefined`), canonical-index access on arrays and strings, `undefined`
on boxed primitives. -/
def jsIndex : Json → String → Json
  | .obj fs, k => (lookupField fs k).getD .undefined
  | .arr xs, k =>
    (match canonicalIndex k with
     | some i => xs.getD i .undefined
     | none => .undefined)
  | .str s, k =>
    (match canonicalIndex k with
     | some i =>
       (match s.toList.get? i with
        | some c => .str (String.mk [c])
        | none => .undefined)
     | none => .undefined)
  | _, _ => .undefined

/-- Member access v[k] as executed by JavaScript: throws a TypeError
when the receiver is null or undefined. -/
def jsMemberE : Json → String → Except String Json
  | .null, k =>
    .error ("TypeError: Cannot read properties of null (reading " ++ k ++ ")")
  | .undefined, k =>
    .error ("TypeError: Cannot read properties of undefined (reading " ++ k ++ ")")
  | v, k => .ok (jsIndex v k)

/-- The in-operator: key test on objects and arrays, a TypeError on
primitive receivers. -/
def jsHasFieldE : Json → String → Except String Bool
  | .obj fs, k => .ok (jsHasFieldL fs k)
  | .arr xs, k =>
    .ok (match canonicalIndex k with
         | some i => Nat.blt i xs.length
         | none => false)
  | _, _ => .error "TypeError: Cannot use in operator on a non-object"

/-- Key test for receivers already known to be objects or arrays
(used for the `in` checks guarded by `typeof === \x7bobject\x7d` tests). -/
def hasKeyJson : Json → String → Bool
  | .obj fs, k => jsHasFieldL fs k
  | .arr xs, k =>
    (match canonicalIndex k with
     | some i => Nat.blt i xs.length
     | none => false)
  | _, _ => false

/-- Model of Object.entries on a non-null receiver: the field list for
objects, index-keyed elements for arrays and strings, `[]` for boxed
primitives. -/
def entriesOf : Json → List (String × Json)
  | .obj fs => fs
  | .arr xs => xs.enum.map (fun p => (toString p.1, p.2))
  | .str s => s.toList.enum.map (fun p => (toString p.1, Json.str (String.mk [p.2])))
  | _ => []

/-- Model of Object.entries as executed: throws on null or undefined. -/
def jsEntriesE : Json → Except String (List (String × Json))
  | .null => .error "TypeError: Cannot convert undefined or null to object"
  | .undefined => .error "TypeError: Cannot convert undefined or null to object"
  | v => .ok (entriesOf v)

mutual
/-- JavaScript String(v) coercion. -/
def jsToString : Json → String
  | .null => "null"
  | .undefined => "undefined"
  | .bool true => "true"
  | .bool false => "false"
  | .num n => toString n
  | .str s => s
  | .arr xs => jsToStringElems xs
  | .obj _ => "[object Object]"
/-- Model of the array join with comma separators (the array-to-string
coercion): null and undefined elements become empty strings. -/
def jsToStringElems : List Json → String
  | [] => ""
  | x :: xs =>
    (match x with
     | .null => ""
     | .undefined => ""
     | y => jsToString y) ++ (if xs.isEmpty then "" else ",") ++ jsToStringElems xs
end

mutual
/-- Structural size measure used for fuel bounds: every leaf counts 1,
each array element or object field contributes its size plus 1. -/
def jsz : Json → Nat
  | .arr xs => 1 + jszElems xs
  | .obj fs => 1 + jszFields fs
  | _ => 1
def jszElems : List Json → Nat
  | [] => 0
  | x :: xs => 1 + jsz x + jszElems xs
def jszFields : List (String × Json) → Nat
  | [] => 0
  | kv :: fs => 1 + jsz kv.2 + jszFields fs
end

/-- A JavaScript number that may be NaN, modelled as `JsNum` (arises only from
`parseInt` in the code under verification). -/
inductive JsNum where
  | int (n : Int) : JsNum
  | nan : JsNum
deriving DecidableEq

/-- Truthiness of a JavaScript number: `0` and `NaN` are falsy. -/
def jsNumTruthy : JsNum → Bool
  | .int n => n != 0
  | .nan => false

/-- String coercion for a JavaScript number. -/
def jsNumToString : JsNum → String
  | .int n => toString n
  | .nan => "NaN"

/-- Whitespace skipped by `parseInt` (the ASCII cases; exotic Unicode
space characters are not modelled, no input in scope contains them). -/
def isJsWhitespace (c : Char) : Bool :=
  c == ' ' || c == '\t' || c == '\n' || c == '\r'

/-- Model of parseInt(s, 10): skip leading whitespace, optional sign, longest
decimal-digit prefix; `NaN` when no digits follow. -/
def parseIntJS (s : String) : JsNum :=
  let cs := s.toList.dropWhile isJsWhitespace
  let signed : Bool × List Char :=
    match cs with
    | '-' :: r => (true, r)
    | '+' :: r => (false, r)
    | r => (false, r)
  let ds := signed.2.takeWhile Char.isDigit
  if ds.isEmpty then .nan
  else
    let n : Int := (digitsToNatAux ds 0 : Nat)
    .int (if signed.1 then -n else n)

/-- Model of the message cleanup regex replace: strip a leading run of
digits and the whitespace after it, when the string starts with a
digit. -/
def stripStatusCodePrefix (s : String) : String :=
  match s.toList with
  | [] => s
  | c :: _ =>
    if c.isDigit then
      String.mk ((s.toList.dropWhile Char.isDigit).dropWhile isJsWhitespace)
    else s

/-- Substring test used to model the includes method. -/
def containsSubAux (sub : List Char) : List Char → Bool
  | [] => sub.isEmpty
  | c :: rest => List.isPrefixOf sub (c :: rest) || containsSubAux sub rest

/-- Model of s.includes(sub). -/
def containsSubstr (s sub : String) : Bool :=
  containsSubAux sub.toList s.toList

/-- Lower-casing for the case-insensitive header lookup. -/
def lowerStr (s : String) : String := String.mk (s.toList.map Char.toLower)

/-- Model of headers.get(name): case-insensitive lookup, `null` (here `none`)
when absent. -/
def headersGet (hs : List (String × String)) (name : String) : Option String :=
  (hs.find? (fun kv => lowerStr kv.1 == lowerStr name)).map (fun kv => kv.2)

/-! ## The error taxonomy (`errors.ts`) -/

/-- Common shape of the seven typed error classes
(`MCPNotionError` and its subclasses).  `message` is a `String`
because the `Error` constructor coerces its argument with `String()`. -/
structure MCPNotionError where
  type : String
  code : String
  httpStatus : Int
  message : String
  retryable : Bool
  suggestion : Option String
  operation : Option String
  params : Option Json
  retryAfter : Option JsNum

/-- Constructor of AuthenticationError(message, operation, params, httpStatus). -/
def AuthenticationError (message : Json) (operation : Option String)
    (params : Option Json) (httpStatus : Int) : MCPNotionError :=
  { type := "AuthenticationError"
    code := if httpStatus = 403 then "forbidden" else "unauthorized"
    httpStatus := httpStatus
    message := jsToString message
    retryable := false
    suggestion := some (if httpStatus = 403 then
        "Votre intégration n\u0027a pas accès à cette ressource. Vérifiez les permissions."
      else
        "Vérifiez que votre token NOTION_TOKEN commence par \"ntn_\" et est valide.")
    operation := operation
    params := params
    retryAfter := none }

/-- Constructor of ValidationError(message, field, operation, params). -/
def ValidationError (message : Json) (field : Option Json)
    (operation : Option String) (params : Option Json) : MCPNotionError :=
  { type := "ValidationError"
    code := "validation_error"
    httpStatus := 400
    message := jsToString message
    retryable := false
    suggestion := some (match field with
      | some f =>
        if truthy f then
          "Le champ \"" ++ jsToString f ++ "\" est invalide ou manquant."
        else "Vérifiez vos paramètres."
      | none => "Vérifiez vos paramètres.")
    operation := operation
    params := params
    retryAfter := none }

/-- Constructor of PermissionError(message, operation, params). -/
def PermissionError (message : Json) (operation : Option String)
    (params : Option Json) : MCPNotionError :=
  { type := "PermissionError"
    code := "forbidden"
    httpStatus := 403
    message := jsToString message
    retryable := false
    suggestion := some "Votre intégration n\u0027a pas les permissions nécessaires. Ajoutez la ressource via les paramètres d\u0027intégration."
    operation := operation
    params := params
    retryAfter := none }

/-- Constructor of NotFoundError(message, resourceType, operation, params). -/
def NotFoundError (message : Json) (resourceType : Option String)
    (operation : Option String) (params : Option Json) : MCPNotionError :=
  { type := "NotFoundError"
    code := "object_not_found"
    httpStatus := 404
    message := jsToString message
    retryable := false
    suggestion := some (match resourceType with
      | some rt =>
        if rt = "" then "Ressource non trouvée."
        else
          "La ressource de type \"" ++ rt ++ "\" n\u0027existe pas ou n\u0027est pas partagée avec votre intégration."
      | none => "Ressource non trouvée.")
    operation := operation
    params := params
    retryAfter := none }

/-- Constructor of ConflictError(message, operation, params). -/
def ConflictError (message : Json) (operation : Option String)
    (params : Option Json) : MCPNotionError :=
  { type := "ConflictError"
    code := "conflict"
    httpStatus := 409
    message := jsToString message
    retryable := true
    suggestion := some "Un conflit est survenu (modification simultanée). Veuillez réessayer."
    operation := operation
    params := params
    retryAfter := none }

/-- Constructor of RateLimitError(message, retryAfter, operation, params). -/
def RateLimitError (message : Json) (retryAfter : Option JsNum)
    (operation : Option String) (params : Option Json) : MCPNotionError :=
  { type := "RateLimitError"
    code := "rate_limited"
    httpStatus := 429
    message := jsToString message
    retryable := true
    suggestion := some (match retryAfter with
      | some ra =>
        if jsNumTruthy ra then
          "Attendez " ++ jsNumToString ra ++ " seconde(s) avant de réessayer."
        else "Ralentissez les requêtes."
      | none => "Ralentissez les requêtes.")
    operation := operation
    params := params
    retryAfter := retryAfter }

/-- Constructor of ServerError(message, operation, params) (note: the class
always records `httpStatus = 500`, whatever status triggered it). -/
def ServerError (message : Json) (operation : Option String)
    (params : Option Json) : MCPNotionError :=
  { type := "ServerError"
    code := "internal_server_error"
    httpStatus := 500
    message := jsToString message
    retryable := true
    suggestion := some "Une erreur serveur est survenue. Veuillez réessayer dans quelques instants."
    operation := operation
    params := params
    retryAfter := none }

/-! ## The error classifier (`mapNotionErrorToMCPError` in `proxy.ts`) -/

/-- Normalized failure object handed over by the HTTP layer
(`HttpClientError`): status, parsed body (`data`, possibly a string or
absent — then `Json.undefined`), the generic `"STATUS StatusText"`
message, and the response headers when captured. -/
structure HttpClientError where
  message : String
  status : Int
  data : Json
  headers : Option (List (String × String))

/-- Body coercion for `retry_after`: a number is taken as is, anything
else goes through `parseInt(String(v), 10)`. -/
def coerceRetryAfter : Json → JsNum
  | .num n => .int n
  | v => parseIntJS (jsToString v)

/-- Extraction step of the classifier: when the body is a non-null
object, pull `message` (truthy values override the generic text),
`code`, `field` and `retry_after`.  Member accesses are modelled as
throwing accesses even though the guard makes them safe. -/
def extractNotionErrorData (data : Json) (message0 : String) :
    Except String (Json × Option Json × Option Json × Option JsNum) :=
  if isObjOrArr data then do
    let m ← jsMemberE data "message"
    let c ← jsMemberE data "code"
    let f ← jsMemberE data "field"
    let r ← jsMemberE data "retry_after"
    pure (if truthy m then m else Json.str message0,
          if truthy c then some c else none,
          if truthy f then some f else none,
          match r with
          | .undefined => none
          | v => some (coerceRetryAfter v))
  else
    pure (Json.str message0, none, none, none)

/-- Resource-type inference at status 404 from the operation id, in source
order: block, page, the two data-source spellings, database, user. -/
def inferResourceType (operation : Option String) : Option String :=
  match operation with
  | some op =>
    if op = "" then none
    else if containsSubstr op "block" then some "block"
    else if containsSubstr op "page" then some "page"
    else if containsSubstr op "data_source" || containsSubstr op "data-source" then some "database"
    else if containsSubstr op "database" then some "database"
    else if containsSubstr op "user" then some "user"
    else none
  | none => none

/-- Header step at status 429 for Retry-After: a present, non-empty header that
parses to a number overwrites the body-derived value; otherwise the
body-derived value is kept. -/
def applyRetryAfterHeader (headers : Option (List (String × String)))
    (retryAfter : Option JsNum) : Option JsNum :=
  match headers with
  | some hs =>
    (match headersGet hs "Retry-After" with
     | some hv =>
       if hv = "" then retryAfter
       else
         (match parseIntJS hv with
          | .int n => some (.int n)
          | .nan => retryAfter)
     | none => retryAfter)
  | none => retryAfter

/-- Port of mapNotionErrorToMCPError(error, operation, params): classify an
HTTP failure into a typed error.  A `.error` result would correspond
to a thrown exception (the totality theorem shows none is reachable). -/
def mapNotionErrorToMCPError (error : HttpClientError)
    (operation : Option String) (params : Option Json) :
    Except String MCPNotionError := do
  let message0 := stripStatusCodePrefix error.message
  let (msgVal, errorCode, fieldVal, retryAfter) ←
    extractNotionErrorData error.data message0
  if error.status = 400 then
    pure (ValidationError msgVal fieldVal operation params)
  else if error.status = 401 then
    pure (AuthenticationError msgVal operation params 401)
  else if error.status = 403 then
    (match errorCode with
     | some (.str s) =>
       if s = "permission_required" then
         pure (PermissionError msgVal operation params)
       else pure (AuthenticationError msgVal operation params 403)
     | _ => pure (AuthenticationError msgVal operation params 403))
  else if error.status = 404 then
    pure (NotFoundError msgVal (inferResourceType operation) operation params)
  else if error.status = 409 then
    pure (ConflictError msgVal operation params)
  else if error.status = 429 then
    pure (RateLimitError msgVal (applyRetryAfterHeader error.headers retryAfter)
      operation params)
  else if error.status = 500 ∨ error.status = 502 ∨ error.status = 503 ∨ error.status = 504 then
    pure (ServerError msgVal operation params)
  else
    pure (ServerError msgVal operation params)

/-! ## The response transformer (`transformer.ts`) -/

/-- Body of the title and rich_text fragment map: the text content of
one fragment (`null` for non-text fragments).  Accessing `t.type` on a
`null`/`undefined` array element throws. -/
def textFragmentContent (t : Json) : Except String Json := do
  let ty ← jsMemberE t "type"
  match ty with
  | .str s =>
    if s = "text" then do
      let tt ← jsMemberE t "text"
      if truthy tt && isObjOrArr tt then pure (jsIndex tt "content")
      else pure Json.null
    else pure Json.null
  | _ => pure Json.null

/-- Helper for the title and rich_text extraction rule: the inner map
computing each fragment's text content. -/
def extractTextContents : List Json → Except String (List Json)
  | [] => pure []
  | t :: ts => do
      let c ← textFragmentContent t
      let rest ← extractTextContents ts
      pure (c :: rest)

/-- Model of joining an array of values with the empty separator. -/
def joinAll (l : List Json) : String :=
  l.foldl (fun acc x => acc ++ jsToString x) ""

/-- Extraction rule shared by the `title` and `rich_text` discriminators:
join the fragments' text contents; if the first fragment carries a
link, return a content/url pair instead; a non-array payload is
returned as is. -/
def extractTextLike (property : Json) (tag : String) : Except String Json :=
  match jsIndex property tag with
  | .arr texts => do
      let cs ← extractTextContents texts
      let content := joinAll (cs.filter truthy)
      (match texts with
       | [] => pure (.str content)
       | first :: _ => do
           let ft ← jsMemberE first "text"
           if truthy ft && isObjOrArr ft then
             let link := jsIndex ft "link"
             if truthy link && isObjOrArr link then
               pure (.obj [("content", .str content), ("url", jsIndex link "url")])
             else pure (.str content)
           else pure (.str content))
  | other => pure other

/-- Helper for the multi_select rule: map each option to its name. -/
def extractOptionNames : List Json → Except String (List Json)
  | [] => pure []
  | s :: ss => do
      let n ← jsMemberE s "name"
      let rest ← extractOptionNames ss
      pure (n :: rest)

/-- Helper for the files rule: map each file object to a url record
(external files) or a url/expiry record (internally hosted files),
`null` otherwise. -/
def extractFileEntries : List Json → Except String (List Json)
  | [] => pure []
  | file :: fsr => do
      let ty ← jsMemberE file "type"
      let v :=
        (match ty with
         | .str s =>
           if s = "external" && truthy (jsIndex file "external") then
             Json.obj [("url", jsIndex (jsIndex file "external") "url")]
           else if s = "file" && truthy (jsIndex file "file") then
             Json.obj [("url", jsIndex (jsIndex file "file") "url"),
                       ("expiry_time", jsIndex (jsIndex file "file") "expiry_time")]
           else Json.null
         | _ => Json.null)
      let rest ← extractFileEntries fsr
      pure (v :: rest)

/-- Helper for the people rule: map each person to an id/name record. -/
def extractPeopleEntries : List Json → Except String (List Json)
  | [] => pure []
  | person :: ps => do
      let i ← jsMemberE person "id"
      let n ← jsMemberE person "name"
      let rest ← extractPeopleEntries ps
      pure (Json.obj [("id", i), ("name", n)] :: rest)

/-- Extraction rule for the user-reference discriminators
(created_by and last_edited_by). -/
def extractUserRef (property : Json) (tag : String) : Except String Json :=
  let v := jsIndex property tag
  if truthy v && isObjOrArr v then
    pure (.obj [("id", jsIndex v "id"), ("name", jsIndex v "name")])
  else pure .null

/-- Port of `ResponseTransformer.extractNotionValue`: extract the
semantic content of one Property Value, dispatching on the `type`
discriminator; unknown or falsy discriminators return the property
unchanged (fail-open). -/
def extractNotionValue (property : Json) : Except String Json :=
  if !(truthy property && isObjOrArr property) then pure property
  else
    match jsIndex property "type" with
    | .str tag =>
      if tag = "" then pure property
      else if tag = "title" then extractTextLike property "title"
      else if tag = "rich_text" then extractTextLike property "rich_text"
      else if tag = "select" then
        (let sel := jsIndex property "select"
         if truthy sel && isObjOrArr sel then pure (jsIndex sel "name") else pure .null)
      else if tag = "multi_select" then
        (match jsIndex property "multi_select" with
         | .arr xs => do
             let ns ← extractOptionNames xs
             pure (.arr (ns.filter truthy))
         | _ => pure (.arr []))
      else if tag = "date" then
        (let d := jsIndex property "date"
         if truthy d && isObjOrArr d then
           if truthy (jsIndex d "end") then
             pure (.obj [("start", jsIndex d "start"), ("end", jsIndex d "end")])
           else pure (jsIndex d "start")
         else pure .null)
      else if tag = "number" then pure (jsIndex property "number")
      else if tag = "checkbox" then pure (jsIndex property "checkbox")
      else if tag = "url" then pure (jsIndex property "url")
      else if tag = "email" then pure (jsIndex property "email")
      else if tag = "phone_number" then pure (jsIndex property "phone_number")
      else if tag = "files" then
        (match jsIndex property "files" with
         | .arr xs => do
             let es ← extractFileEntries xs
             pure (.arr (es.filter truthy))
         | _ => pure (.arr []))
      else if tag = "people" then
        (match jsIndex property "people" with
         | .arr xs => do
             let es ← extractPeopleEntries xs
             pure (.arr es)
         | _ => pure (.arr []))
      else if tag = "relation" then
        (match jsIndex property "relation" with
         | .arr xs => pure (.arr xs)
         | _ => pure (.arr []))
      else if tag = "formula" then
        (let f := jsIndex property "formula"
         if truthy f && isObjOrArr f then
           if hasKeyJson f "string" then pure (jsIndex f "string")
           else if hasKeyJson f "number" then pure (jsIndex f "number")
           else if hasKeyJson f "boolean" then pure (jsIndex f "boolean")
           else if hasKeyJson f "date" then pure (jsIndex f "date")
           else pure .null
         else pure .null)
      else if tag = "rollup" then
        (let r := jsIndex property "rollup"
         if truthy r && isObjOrArr r then
           if hasKeyJson r "number" then pure (jsIndex r "number")
           else if hasKeyJson r "date" then pure (jsIndex r "date")
           else if hasKeyJson r "array" then pure (jsIndex r "array")
           else if hasKeyJson r "incomplete" then pure .null
           else pure .null
         else pure .null)
      else if tag = "status" then
        (let st := jsIndex property "status"
         if truthy st && isObjOrArr st then pure (jsIndex st "name") else pure .null)
      else if tag = "created_time" then pure (jsIndex property "created_time")
      else if tag = "created_by" then extractUserRef property "created_by"
      else if tag = "last_edited_time" then pure (jsIndex property "last_edited_time")
      else if tag = "last_edited_by" then extractUserRef property "last_edited_by"
      else if tag = "unique_id" then
        (let u := jsIndex property "unique_id"
         if truthy u && isObjOrArr u then
           match jsIndex u "number" with
           | .undefined => pure .null
           | numv =>
             (let pfx := jsIndex u "prefix"
              if truthy pfx then
                pure (.str (jsToString pfx ++ "-" ++ jsToString numv))
              else pure numv)
         else pure .null)
      else if tag = "place" then
        (let p := jsIndex property "place"
         if truthy p && isObjOrArr p then pure p else pure .null)
      else pure property
    | _ => pure property

/-- Metadata field names copied through verbatim by the default
object pass. -/
def metadataKeys : List String :=
  ["id", "created_time", "last_edited_time", "created_by", "last_edited_by",
   "archived", "in_trash", "url", "public_url", "parent", "object",
   "type", "has_children", "next_cursor", "prev_cursor"]

/-- Port of `ResponseTransformer.isMetadataField`. -/
def isMetadataField (key : String) : Bool := metadataKeys.contains key

/-- Port of `ResponseTransformer.extractMetadata`: the subset of
pagination/metadata fields present on the envelope, in fixed order. -/
def extractMetadata (fs : List (String × Json)) : List (String × Json) :=
  ["next_cursor", "prev_cursor", "has_more", "type", "object"].filterMap
    (fun k => (lookupField fs k).map (fun v => (k, v)))

/-- Loop of `ResponseTransformer.transformProperties`: every entry whose
value is a non-null object goes through Property Value extraction,
other entries are copied as is. -/
def transformPropsLoop : List (String × Json) → List (String × Json) →
    Except String (List (String × Json))
  | [], acc => pure acc
  | (name, pv) :: rest, acc => do
      let v ← if truthy pv && isObjOrArr pv then extractNotionValue pv else pure pv
      transformPropsLoop rest (setField acc name v)

/-- Port of `ResponseTransformer.transformProperties`. -/
def transformProperties (v : Json) : Except String Json := do
  let out ← transformPropsLoop (entriesOf v) []
  pure (.obj out)

mutual
/-- Port of `ResponseTransformer.transformReduced` (fueled):
null, undefined and primitives are returned unchanged, arrays are
transformed element-wise, an object carrying a `results` array is
treated as a pagination envelope, any other object goes through the
single-object pass. -/
def transformReducedF : Nat → Json → Option (List String) → Except String Json
  | 0, _, _ => .error "FUEL"
  | fuel+1, data, fields =>
    match data with
    | .null => pure .null
    | .undefined => pure .undefined
    | .arr xs => do
        let ys ← transformReducedListF fuel xs fields
        pure (.arr ys)
    | .obj fs =>
      (match lookupField fs "results" with
       | some (.arr rs) => do
           let ys ← transformResultsF fuel rs fields
           pure (.obj (extractMetadata fs ++ [("results", .arr ys)]))
       | _ => transformObjectF fuel (.obj fs) fields)
    | v => pure v
/-- Element-wise recursion of the reduced transform over an array. -/
def transformReducedListF : Nat → List Json → Option (List String) →
    Except String (List Json)
  | 0, _, _ => .error "FUEL"
  | _+1, [], _ => pure []
  | fuel+1, x :: xs, fields => do
      let y ← transformReducedF fuel x fields
      let ys ← transformReducedListF fuel xs fields
      pure (y :: ys)
/-- Map of the single-object pass over the elements of a `results`
array (the elements are handed to `transformObject` unguarded). -/
def transformResultsF : Nat → List Json → Option (List String) →
    Except String (List Json)
  | 0, _, _ => .error "FUEL"
  | _+1, [], _ => pure []
  | fuel+1, x :: xs, fields => do
      let y ← transformObjectF fuel x fields
      let ys ← transformResultsF fuel xs fields
      pure (y :: ys)
/-- Port of `ResponseTransformer.transformObject` (fueled): with a
non-empty fields whitelist, emit exactly the named fields present on
the object, each through `transformValue`; otherwise iterate over all
entries, copying metadata fields verbatim, expanding a `properties`
entry through Property Value extraction and recursively transforming
everything else. -/
def transformObjectF : Nat → Json → Option (List String) → Except String Json
  | 0, _, _ => .error "FUEL"
  | fuel+1, o, fields =>
    match fields with
    | some (f :: fsRest) => do
        let out ← transformFieldsLoopF fuel o (f :: fsRest) []
        pure (.obj out)
    | _ => do
        let es ← jsEntriesE o
        let out ← transformEntriesLoopF fuel es []
        pure (.obj out)
/-- Loop of the fields-whitelist branch of `transformObject`. -/
def transformFieldsLoopF : Nat → Json → List String → List (String × Json) →
    Except String (List (String × Json))
  | 0, _, _, _ => .error "FUEL"
  | _+1, _, [], acc => pure acc
  | fuel+1, o, field :: rest, acc => do
      let b ← jsHasFieldE o field
      if b then do
        let v ← transformValueF fuel (jsIndex o field)
        transformFieldsLoopF fuel o rest (setField acc field v)
      else transformFieldsLoopF fuel o rest acc
/-- Loop of the default branch of `transformObject` over the object's
entries. -/
def transformEntriesLoopF : Nat → List (String × Json) → List (String × Json) →
    Except String (List (String × Json))
  | 0, _, _ => .error "FUEL"
  | _+1, [], acc => pure acc
  | fuel+1, (key, value) :: rest, acc =>
      if isMetadataField key then
        transformEntriesLoopF fuel rest (setField acc key value)
      else if key == "properties" && isObjOrArr value then do
        let p ← transformProperties value
        transformEntriesLoopF fuel rest (setField acc key p)
      else do
        let v ← transformValueF fuel value
        transformEntriesLoopF fuel rest (setField acc key v)
/-- Port of `ResponseTransformer.transformValue` (fueled): null and
undefined are returned unchanged, arrays map object elements through
the single-object pass, objects go through the single-object pass,
primitives are returned unchanged. -/
def transformValueF : Nat → Json → Except String Json
  | 0, _ => .error "FUEL"
  | fuel+1, value =>
    match value with
    | .null => pure .null
    | .undefined => pure .undefined
    | .arr xs => do
        let ys ← transformValueListF fuel xs
        pure (.arr ys)
    | .obj fs => transformObjectF fuel (.obj fs) none
    | v => pure v
/-- Element-wise map inside `transformValue` over an array value. -/
def transformValueListF : Nat → List Json → Except String (List Json)
  | 0, _ => .error "FUEL"
  | _+1, [] => pure []
  | fuel+1, item :: rest => do
      let y ← if truthy item && isObjOrArr item then transformObjectF fuel item none
              else pure item
      let ys ← transformValueListF fuel rest
      pure (y :: ys)
end

/-- Port of `ResponseTransformer.transformSuccessOnly` (the unused
`operationType` parameter of the source is omitted — the source never
reads it): collapse to a minimal confirmation record. -/
def transformSuccessOnly (data : Json) : Json :=
  match data with
  | .obj fs =>
    if jsHasFieldL fs "id" then
      .obj ([("success", .bool true), ("id", (lookupField fs "id").getD .undefined)]
        ++ (if jsHasFieldL fs "created_time" then
              [("created_time", (lookupField fs "created_time").getD .undefined)]
            else [])
        ++ (if jsHasFieldL fs "last_edited_time" then
              [("last_edited_time", (lookupField fs "last_edited_time").getD .undefined)]
            else [])
        ++ (match lookupField fs "results" with
            | some (.arr rs) =>
              [("count", .num rs.length),
               ("message", .str ("Successfully processed " ++ toString rs.length ++ " item(s)"))]
            | _ => [("message", .str "Operation successful")]))
    else .obj [("success", .bool true)]
  | .arr xs =>
    .obj [("success", .bool true), ("count", .num xs.length),
          ("message", .str ("Successfully processed " ++ toString xs.length ++ " item(s)"))]
  | _ => .obj [("success", .bool true)]

/-- Length of the optional fields whitelist (for the fuel budget). -/
def fieldsLen : Option (List String) → Nat
  | some fs => fs.length
  | none => 0

/-- Fuel supplied by the public wrapper; `transformReducedF_ok_of_safe`
shows it suffices on well-formed inputs. -/
def transformFuel (data : Json) (fields : Option (List String)) : Nat :=
  2 * jsz data + fieldsLen fields + 2

/-- Port of `ResponseTransformer.transform`: mode resolution
(explicit mode, else the transformer's default), identity for `full`,
dispatch for `success_only` and `reduced`, identity fallback for any
other mode value. -/
def transform (defaultMode : String) (data : Json) (mode : Option String)
    (fields : Option (List String)) : Except String Json :=
  let m := mode.getD defaultMode
  if m = "full" then pure data
  else if m = "success_only" then pure (transformSuccessOnly data)
  else if m = "reduced" then transformReducedF (transformFuel data fields) data fields
  else pure data

/-! ## Helper lemmas -/

@[simp]
theorem lookupField_nil (k : String) : lookupField [] k = none := rfl

theorem lookupField_cons (k0 : String) (v0 : Json) (fs : List (String × Json)) (k : String) :
    lookupField ((k0, v0) :: fs) k = if k0 = k then some v0 else lookupField fs k := by
  by_cases h : k0 = k
  · subst h
    rw [lookupField, List.find?_cons_of_pos _ (by simp)]
    simp
  · rw [lookupField, List.find?_cons_of_neg _ (by simp [h]), if_neg h]
    rfl

@[simp]
theorem lookupField_setField_self (acc : List (String × Json)) (k : String) (v : Json) :
    lookupField (setField acc k v) k = some v := by
  induction acc with
  | nil => simp [setField, lookupField_cons]
  | cons kv rest ih =>
    obtain ⟨k0, v0⟩ := kv
    simp only [setField]
    by_cases h : k0 = k
    · simp [h, lookupField_cons]
    · simp only [beq_iff_eq, if_neg h]
      rw [lookupField_cons, if_neg h]
      exact ih

theorem lookupField_setField_ne (acc : List (String × Json)) (k k' : String) (v : Json)
    (h : k' ≠ k) : lookupField (setField acc k v) k' = lookupField acc k' := by
  induction acc with
  | nil =>
    simp only [setField]
    rw [lookupField_cons, if_neg (Ne.symm h)]
  | cons kv rest ih =>
    obtain ⟨k0, v0⟩ := kv
    simp only [setField]
    by_cases h0 : k0 = k
    · subst h0
      simp only [beq_self_eq_true, if_pos]
      rw [lookupField_cons, lookupField_cons, if_neg (Ne.symm h), if_neg (Ne.symm h)]
    · simp only [beq_iff_eq, if_neg h0]
      rw [lookupField_cons, lookupField_cons]
      by_cases h1 : k0 = k'
      · simp [h1]
      · rw [if_neg h1, if_neg h1]
        exact ih

/-! ## Claim theorems -/

/-- Claim C7: for every input, `full` mode returns the input unchanged
(hence transforming twice equals transforming once equals the
identity), and any mode value outside the three known modes likewise
returns the input unchanged. -/
theorem claim_C7 :
    ∀ (defaultMode : String) (x : Json) (fields : Option (List String)) (m : String),
      transform defaultMode x (some "full") fields = .ok x ∧
      ((transform defaultMode x (some "full") fields).bind
        (fun y => transform defaultMode y (some "full") fields) = .ok x) ∧
      (m ≠ "full" → m ≠ "reduced" → m ≠ "success_only" →
        transform defaultMode x (some m) fields = .ok x) := by
  intro defaultMode x fields m
  refine ⟨rfl, rfl, ?_⟩
  intro h1 h2 h3
  simp only [transform, Option.getD_some]
  rw [if_neg h1, if_neg h3, if_neg h2]
  rfl

/-- Witness for claim C7 at the concrete unknown mode `bogus`. -/
theorem claim_C7_witness :
    transform "full" (Json.str "x") (some "bogus") none = .ok (Json.str "x") :=
  (claim_C7 "full" (Json.str "x") none "bogus").2.2 (by decide) (by decide) (by decide)

/-- Claim C10: `success_only` on an object without an `id` field
returns exactly the bare success record — the count and the
"Successfully processed" message are emitted only when the object also
carries an `id` field (second conjunct: with `id` and a `results`
array they are emitted). -/
theorem claim_C10 :
    (∀ fs, jsHasFieldL fs "id" = false →
      transformSuccessOnly (.obj fs) = .obj [("success", .bool true)]) ∧
    (∀ fs rs, jsHasFieldL fs "id" = true → lookupField fs "results" = some (.arr rs) →
      transformSuccessOnly (.obj fs) =
        .obj ([("success", .bool true), ("id", (lookupField fs "id").getD .undefined)]
          ++ (if jsHasFieldL fs "created_time" then
                [("created_time", (lookupField fs "created_time").getD .undefined)]
              else [])
          ++ (if jsHasFieldL fs "last_edited_time" then
                [("last_edited_time", (lookupField fs "last_edited_time").getD .undefined)]
              else [])
          ++ [("count", .num rs.length),
              ("message", .str ("Successfully processed " ++ toString rs.length ++ " item(s)"))])) := by
  constructor
  · intro fs h
    simp [transformSuccessOnly, h]
  · intro fs rs h1 h2
    simp [transformSuccessOnly, h1, h2]

/-- Witness for claim C10: a pagination envelope without `id` loses its
count, and an object with `id` and three results keeps it. -/
theorem claim_C10_witness :
    transformSuccessOnly (.obj [("results", .arr [.num 1, .num 2]), ("has_more", .bool false)]) =
      .obj [("success", .bool true)] ∧
    transformSuccessOnly (.obj [("id", .str "p1"), ("results", .arr [.num 1, .num 2, .num 3])]) =
      .obj [("success", .bool true), ("id", .str "p1"), ("count", .num 3),
            ("message", .str "Successfully processed 3 item(s)")] :=
  ⟨claim_C10.1 _ rfl,
   by rw [claim_C10.2 [("id", Json.str "p1"), ("results", Json.arr [Json.num 1, Json.num 2, Json.num 3])]
        [Json.num 1, Json.num 2, Json.num 3] rfl rfl]
      rfl⟩

/-- Claim C9: for a Property Value whose discriminator is one of the
five scalar tags, extraction returns exactly the same-named nested
payload, unchanged. -/
theorem claim_C9 :
    ∀ (fs : List (String × Json)) (tag : String),
      tag ∈ (["number", "checkbox", "url", "email", "phone_number"] : List String) →
      jsIndex (.obj fs) "type" = .str tag →
      extractNotionValue (.obj fs) = .ok (jsIndex (.obj fs) tag) := by
  intro fs tag hmem htype
  simp only [List.mem_cons, List.not_mem_nil, or_false] at hmem
  rcases hmem with h | h | h | h | h <;> subst h <;>
    simp [extractNotionValue, truthy, isObjOrArr, htype] <;> rfl

/-- Witness for claim C9 at a concrete number Property Value. -/
theorem claim_C9_witness :
    extractNotionValue (.obj [("type", .str "number"), ("number", .num 42)]) =
      .ok (.num 42) := by
  have := claim_C9 [("type", .str "number"), ("number", .num 42)] "number"
    (by decide) rfl
  simpa using this

/-- The known Property Value discriminator tags of the extraction
switch, in source order. -/
def knownPropertyTags : List String :=
  ["title", "rich_text", "select", "multi_select", "date", "number", "checkbox",
   "url", "email", "phone_number", "files", "people", "relation", "formula",
   "rollup", "status", "created_time", "created_by", "last_edited_time",
   "last_edited_by", "unique_id", "place"]

/-- Claim C6: a Property Value object whose `type` discriminator is not
one of the known tags (including absent or non-string discriminators)
is returned by extraction entirely unchanged — fail-open. -/
theorem claim_C6 :
    ∀ (fs : List (String × Json)),
      (∀ t ∈ knownPropertyTags, jsIndex (.obj fs) "type" ≠ .str t) →
      extractNotionValue (.obj fs) = .ok (.obj fs) := by
  intro fs h
  rcases htype : jsIndex (.obj fs) "type" with _ | _ | b | n | s | xs | gs <;>
    simp only [extractNotionValue, truthy, isObjOrArr, Bool.and_self, Bool.not_true,
      Bool.false_eq_true, if_false, htype]
  · rfl
  · rfl
  · rfl
  · rfl
  · -- string discriminator: every known tag is excluded by hypothesis
    have hne : ∀ t ∈ knownPropertyTags, s ≠ t := by
      intro t ht heq
      exact h t ht (htype.trans (by rw [heq]))
    by_cases hs : s = ""
    · simp only [hs, if_pos rfl]
      rfl
    · simp [hs, hne "title" (by decide), hne "rich_text" (by decide),
        hne "select" (by decide), hne "multi_select" (by decide),
        hne "date" (by decide), hne "number" (by decide),
        hne "checkbox" (by decide), hne "url" (by decide),
        hne "email" (by decide), hne "phone_number" (by decide),
        hne "files" (by decide), hne "people" (by decide),
        hne "relation" (by decide), hne "formula" (by decide),
        hne "rollup" (by decide), hne "status" (by decide),
        hne "created_time" (by decide), hne "created_by" (by decide),
        hne "last_edited_time" (by decide), hne "last_edited_by" (by decide),
        hne "unique_id" (by decide), hne "place" (by decide)]
      rfl
  · rfl
  · rfl

/-- Witness for claim C6 at a concrete unrecognized discriminator. -/
theorem claim_C6_witness :
    extractNotionValue (.obj [("type", .str "verification"), ("verification", .obj [("state", .str "verified")])]) =
      .ok (.obj [("type", .str "verification"), ("verification", .obj [("state", .str "verified")])]) :=
  claim_C6 _ (by
    intro t ht heq
    have heq2 : Json.str "verification" = Json.str t := heq
    injection heq2 with h3
    subst h3
    exact absurd ht (by decide))

/-- The extraction step never throws: the member accesses are reached
only behind the object guard. -/
theorem extractNotionErrorData_ok (data : Json) (m0 : String) :
    ∃ q, extractNotionErrorData data m0 = .ok q := by
  cases data <;>
    simp [extractNotionErrorData, isObjOrArr, jsMemberE, Bind.bind, Except.bind,
      pure, Except.pure]

/-- Body-derived `retry_after` value, as characterized by the amended
claim C1: present fields are coerced (numbers as is, anything else
through parseInt of its string coercion). -/
def bodyRetryAfter (data : Json) : Option JsNum :=
  if isObjOrArr data then
    match jsIndex data "retry_after" with
    | .undefined => none
    | v => some (coerceRetryAfter v)
  else none

/-- The fourth component of the extraction step is exactly the
body-derived `retry_after` value. -/
theorem extract_retryAfter_eq (data : Json) (m0 : String) (msgVal : Json)
    (ec fv : Option Json) (ra : Option JsNum)
    (h : extractNotionErrorData data m0 = .ok (msgVal, ec, fv, ra)) :
    ra = bodyRetryAfter data := by
  cases data <;>
    simp [extractNotionErrorData, bodyRetryAfter, isObjOrArr, jsMemberE,
      Bind.bind, Except.bind, pure, Except.pure] at h ⊢ <;>
    simp [h.2.2.2]

/-- Claim C1 (amended): at status 429, the classified error's
`retryAfter` is the body-derived `retry_after` value (number, or any
other value coerced through parseInt of its string form) overridden by
a present, parseable `Retry-After` header — the header wins when both
are present; a malformed or empty header leaves the body-derived value
(or leaves `retryAfter` unset when the body also lacks the field). -/
theorem claim_C1 :
    ∀ (e : HttpClientError) (op : Option String) (p : Option Json)
      (err : MCPNotionError),
      e.status = 429 →
      mapNotionErrorToMCPError e op p = .ok err →
      err.retryAfter = applyRetryAfterHeader e.headers (bodyRetryAfter e.data) := by
  intro e op p err h429 h
  obtain ⟨⟨msgVal, errorCode, fieldVal, retryAfter⟩, hq⟩ :=
    extractNotionErrorData_ok e.data (stripStatusCodePrefix e.message)
  have hra := extract_retryAfter_eq e.data _ _ _ _ _ hq
  unfold mapNotionErrorToMCPError at h
  simp only [hq, Bind.bind, Except.bind, h429, pure, Except.pure] at h
  norm_num at h
  rw [← h]
  simp only [RateLimitError]
  rw [hra]

/-- Failure input refuting claim C1 as stated: the body supplies
`retry_after = 15` and the response carries a parseable
`Retry-After: 30` header. -/
def c1CounterInput : HttpClientError :=
  { message := "429 Too Many Requests"
    status := 429
    data := .obj [("message", .str "Rate limited"), ("retry_after", .num 15)]
    headers := some [("Retry-After", "30")] }

/-- Counterexample to claim C1 as stated: with body `retry_after = 15`
and header `Retry-After: 30`, the code consults the header even though
the body has the field, and the header value 30 overwrites the body
value 15 (the claim predicts 15). -/
theorem claim_C1_counterexample :
    (mapNotionErrorToMCPError c1CounterInput none none).toOption.map
        MCPNotionError.retryAfter = some (some (JsNum.int 30)) ∧
      JsNum.int 30 ≠ JsNum.int 15 :=
  ⟨rfl, by decide⟩

/-- Scenario A input: status 429, body message plus string
`retry_after` of "15", no headers. -/
def c1WitnessInput : HttpClientError :=
  { message := "429 Too Many Requests"
    status := 429
    data := .obj [("message", .str "Rate limited"), ("retry_after", .str "15")]
    headers := none }

/-- Witness for claim C1 (amended) at Scenario A: the string "15" is
coerced to the integer 15 when no header competes. -/
theorem claim_C1_witness :
    (RateLimitError (Json.str "Rate limited") (some (JsNum.int 15)) none none).retryAfter
        = applyRetryAfterHeader c1WitnessInput.headers (bodyRetryAfter c1WitnessInput.data) ∧
      applyRetryAfterHeader c1WitnessInput.headers (bodyRetryAfter c1WitnessInput.data)
        = some (JsNum.int 15) :=
  ⟨claim_C1 c1WitnessInput none none _ rfl rfl, rfl⟩

/-- Resource-type inference as worded by claim C8: scan the operation
id for substring markers in the fixed priority order block, page, the
two data-source spellings, database, user, taking the first match.
(Second, claim-level definition, to be compared with the source's
`inferResourceType`.) -/
def inferResourceTypeSpec (op : String) : Option String :=
  if containsSubstr op "block" then some "block"
  else if containsSubstr op "page" then some "page"
  else if containsSubstr op "data_source" || containsSubstr op "data-source" then some "database"
  else if containsSubstr op "database" then some "database"
  else if containsSubstr op "user" then some "user"
  else none

/-- The source's inference agrees with the claim-level priority scan
for every supplied operation id (the source's extra guard on the empty
string changes nothing: no marker is a substring of ""). -/
theorem inferResourceType_eq_spec (op : String) :
    inferResourceType (some op) = inferResourceTypeSpec op := by
  by_cases h : op = ""
  · subst h
    rfl
  · simp [inferResourceType, inferResourceTypeSpec, h]

/-- A successful inference never returns the empty string. -/
theorem inferResourceTypeSpec_ne_empty (op rt : String)
    (h : inferResourceTypeSpec op = some rt) : rt ≠ "" := by
  unfold inferResourceTypeSpec at h
  split_ifs at h <;> simp_all <;> (subst h; decide)

/-- Suggestion text of a NotFound error as a function of the inferred
resource type. -/
def notFoundSuggestionText (rt : Option String) : String :=
  match rt with
  | some t =>
    "La ressource de type \"" ++ t ++ "\" n'existe pas ou n'est pas partagée avec votre intégration."
  | none => "Ressource non trouvée."

/-- Claim C8: at status 404 with a supplied operation id, the
classified error is a NotFound error whose code is always
`object_not_found` and which is never retryable, and whose suggestion
text is determined by the first-match substring scan of the operation
id in the order block, page, data-source spellings, database, user
(no match leaves the resource type unset, giving the generic text). -/
theorem claim_C8 :
    ∀ (e : HttpClientError) (op : String) (p : Option Json)
      (err : MCPNotionError),
      e.status = 404 →
      mapNotionErrorToMCPError e (some op) p = .ok err →
      err.type = "NotFoundError" ∧ err.code = "object_not_found" ∧
        err.retryable = false ∧
        err.suggestion = some (notFoundSuggestionText (inferResourceTypeSpec op)) := by
  intro e op p err h404 h
  obtain ⟨⟨msgVal, errorCode, fieldVal, retryAfter⟩, hq⟩ :=
    extractNotionErrorData_ok e.data (stripStatusCodePrefix e.message)
  unfold mapNotionErrorToMCPError at h
  simp only [hq, Bind.bind, Except.bind, h404, pure, Except.pure] at h
  norm_num at h
  rw [← h]
  refine ⟨rfl, rfl, rfl, ?_⟩
  simp only [NotFoundError, inferResourceType_eq_spec]
  rcases hspec : inferResourceTypeSpec op with _ | rt
  · rfl
  · simp [notFoundSuggestionText, inferResourceTypeSpec_ne_empty op rt hspec]

/-- Scenario C input: a plain 404 failure. -/
def c8WitnessInput : HttpClientError :=
  { message := "404 Not Found"
    status := 404
    data := .undefined
    headers := none }

/-- Witness for claim C8 at Scenario C: operation id
"retrieve-a-block" yields a suggestion containing "block". -/
theorem claim_C8_witness :
    ((NotFoundError (Json.str "Not Found") (some "block") (some "retrieve-a-block") none).suggestion
        = some (notFoundSuggestionText (inferResourceTypeSpec "retrieve-a-block"))) ∧
      containsSubstr (notFoundSuggestionText (inferResourceTypeSpec "retrieve-a-block")) "block" = true :=
  ⟨(claim_C8 c8WitnessInput "retrieve-a-block" none _ rfl rfl).2.2.2, rfl⟩

/-- Claim C5: for every classified error, the retryable flag is
determined solely by the kind: exactly the Conflict, RateLimit and
Server kinds are retryable, whatever the status, body, operation id
and params were. -/
theorem claim_C5 :
    ∀ (e : HttpClientError) (op : Option String) (p : Option Json)
      (err : MCPNotionError),
      mapNotionErrorToMCPError e op p = .ok err →
      (err.retryable = true ↔
        (err.type = "ConflictError" ∨ err.type = "RateLimitError" ∨
          err.type = "ServerError")) := by
  intro e op p err h
  obtain ⟨⟨msgVal, errorCode, fieldVal, retryAfter⟩, hq⟩ :=
    extractNotionErrorData_ok e.data (stripStatusCodePrefix e.message)
  unfold mapNotionErrorToMCPError at h
  simp only [hq, Bind.bind, Except.bind, pure, Except.pure] at h
  rcases errorCode with _ | (_ | _ | b | n | s | xs | gs) <;>
    dsimp only at h <;>
    split_ifs at h <;>
    simp only [Except.ok.injEq] at h <;>
    rw [← h] <;>
    simp [ValidationError, AuthenticationError, PermissionError, NotFoundError,
      ConflictError, RateLimitError, ServerError]

/-- Witness for claim C5 at a concrete 409 conflict. -/
theorem claim_C5_witness :
    (ConflictError (Json.str "Conflict occurred") none none).retryable = true ↔
      ((ConflictError (Json.str "Conflict occurred") none none).type = "ConflictError" ∨
        (ConflictError (Json.str "Conflict occurred") none none).type = "RateLimitError" ∨
        (ConflictError (Json.str "Conflict occurred") none none).type = "ServerError") :=
  claim_C5
    { message := "409 Conflict"
      status := 409
      data := .obj [("message", .str "Conflict occurred")]
      headers := none } none none _ rfl

/-- Claim C4: classification is total and never throws — for every
integer status and every body shape it returns exactly one typed
error, and any status outside the explicitly mapped set produces the
Server kind. -/
theorem claim_C4 :
    ∀ (e : HttpClientError) (op : Option String) (p : Option Json),
      ∃ err, mapNotionErrorToMCPError e op p = .ok err ∧
        (e.status ∉ ([400, 401, 403, 404, 409, 429, 500, 502, 503, 504] : List Int) →
          err.type = "ServerError") := by
  intro e op p
  obtain ⟨⟨msgVal, errorCode, fieldVal, retryAfter⟩, hq⟩ :=
    extractNotionErrorData_ok e.data (stripStatusCodePrefix e.message)
  unfold mapNotionErrorToMCPError
  simp only [hq, Bind.bind, Except.bind, pure, Except.pure]
  rcases errorCode with _ | (_ | _ | b | n | s | xs | gs) <;>
    dsimp only <;>
    split_ifs <;>
    refine ⟨_, rfl, fun hmem => ?_⟩ <;>
    simp_all [ServerError]

/-- Witness for claim C4 at the unmapped status 418. -/
theorem claim_C4_witness :
    ∃ err,
      mapNotionErrorToMCPError
        { message := "418 I am a teapot"
          status := 418
          data := .undefined
          headers := none } none none = .ok err ∧
      ((418 : Int) ∉ ([400, 401, 403, 404, 409, 429, 500, 502, 503, 504] : List Int) →
        err.type = "ServerError") :=
  claim_C4
    { message := "418 I am a teapot"
      status := 418
      data := .undefined
      headers := none } none none

/-- Characterization of the fields-whitelist loop: a key ends up in the
output exactly when it is a listed field present on the object (then
its value is the `transformValue` result of the object's value) or it
was already in the accumulator. -/
theorem transformFieldsLoopF_spec :
    ∀ (fs : List String) (fuel : Nat) (o : List (String × Json))
      (acc out : List (String × Json)),
      transformFieldsLoopF fuel (.obj o) fs acc = .ok out →
      ∀ k : String,
        ((k ∈ fs ∧ jsHasFieldL o k = true) →
          ∃ f' v, transformValueF f' (jsIndex (.obj o) k) = .ok v ∧
            lookupField out k = some v) ∧
        (¬(k ∈ fs ∧ jsHasFieldL o k = true) →
          lookupField out k = lookupField acc k) := by
  intro fs
  induction fs with
  | nil =>
    intro fuel o acc out h k
    cases fuel with
    | zero => simp [transformFieldsLoopF] at h
    | succ fuel =>
      simp only [transformFieldsLoopF, pure, Except.pure, Except.ok.injEq] at h
      subst h
      exact ⟨fun hk => absurd hk.1 (List.not_mem_nil k), fun _ => rfl⟩
  | cons field rest ih =>
    intro fuel o acc out h k
    cases fuel with
    | zero => simp [transformFieldsLoopF] at h
    | succ fuel =>
      simp only [transformFieldsLoopF, jsHasFieldE, Bind.bind, Except.bind] at h
      by_cases hb : jsHasFieldL o field = true
      · rw [if_pos hb] at h
        cases hv : transformValueF fuel (jsIndex (.obj o) field) with
        | error s => rw [hv] at h; exact absurd h (by simp)
        | ok v =>
          rw [hv] at h
          have hrec := ih fuel o (setField acc field v) out h
          constructor
          · rintro ⟨hkmem, hkf⟩
            by_cases hkr : k ∈ rest
            · exact (hrec k).1 ⟨hkr, hkf⟩
            · have hkeq : k = field := by
                rcases List.mem_cons.mp hkmem with h' | h'
                · exact h'
                · exact absurd h' hkr
              subst hkeq
              refine ⟨fuel, v, hv, ?_⟩
              rw [(hrec k).2 (fun hc => hkr hc.1)]
              exact lookupField_setField_self acc k v
          · intro hneg
            have hknr : ¬(k ∈ rest ∧ jsHasFieldL o k = true) := by
              rintro ⟨h1, h2⟩
              exact hneg ⟨List.mem_cons_of_mem field h1, h2⟩
            rw [(hrec k).2 hknr]
            have hkne : k ≠ field := by
              rintro rfl
              exact hneg ⟨List.mem_cons_self k rest, hb⟩
            exact lookupField_setField_ne acc field k v hkne
      · rw [if_neg hb] at h
        have hrec := ih fuel o acc out h
        constructor
        · rintro ⟨hkmem, hkf⟩
          rcases List.mem_cons.mp hkmem with h' | h'
          · subst h'
            exact absurd hkf hb
          · exact (hrec k).1 ⟨h', hkf⟩
        · intro hneg
          refine (hrec k).2 ?_
          rintro ⟨h1, h2⟩
          exact hneg ⟨List.mem_cons_of_mem field h1, h2⟩

/-- Claim C3 (amended): with a non-empty fields list, the single-object
pass emits exactly the named fields present on the object (absent
named fields are omitted, never defaulted to null), and every emitted
field — metadata and `properties` included — is produced by the
recursive `transformValue` rule, not by the default pass's special
cases (no verbatim metadata copy, no Property Value extraction). -/
theorem claim_C3 :
    ∀ (fuel : Nat) (o : List (String × Json)) (f0 : String) (fs : List String)
      (r : Json),
      transformObjectF fuel (.obj o) (some (f0 :: fs)) = .ok r →
      ∃ out, r = .obj out ∧
        ∀ k : String,
          ((k ∈ f0 :: fs ∧ jsHasFieldL o k = true) →
            ∃ f' v, transformValueF f' (jsIndex (.obj o) k) = .ok v ∧
              lookupField out k = some v) ∧
          (¬(k ∈ f0 :: fs ∧ jsHasFieldL o k = true) → lookupField out k = none) := by
  intro fuel o f0 fs r h
  cases fuel with
  | zero => simp [transformObjectF] at h
  | succ fuel =>
    simp only [transformObjectF, Bind.bind, Except.bind] at h
    cases hl : transformFieldsLoopF fuel (.obj o) (f0 :: fs) [] with
    | error s => rw [hl] at h; exact absurd h (by simp)
    | ok out =>
      rw [hl] at h
      simp only [pure, Except.pure, Except.ok.injEq] at h
      refine ⟨out, h.symm, ?_⟩
      intro k
      have hrec := transformFieldsLoopF_spec (f0 :: fs) fuel o [] out hl k
      exact ⟨hrec.1, fun hneg => (hrec.2 hneg).trans rfl⟩

/-- Input refuting claim C3 as stated: a resource whose `properties`
map holds a select Property Value. -/
def c3Input : Json :=
  .obj [("properties", .obj [("Status",
    .obj [("id", .str "s1"), ("type", .str "select"),
          ("select", .obj [("name", .str "Done")])])])]

/-- Counterexample to claim C3 as stated: with fields = [properties],
the emitted `properties` field is recursively transformed (keeping the
select structure) instead of going through Property Value extraction
as the default pass does (which yields the bare name), so the
fields pass does not use "the same per-field rule as the default
pass". -/
theorem claim_C3_counterexample :
    transform "full" c3Input (some "reduced") (some ["properties"]) =
      .ok (.obj [("properties", .obj [("Status",
        .obj [("id", .str "s1"), ("type", .str "select"),
              ("select", .obj [("name", .str "Done")])])])]) ∧
    transform "full" c3Input (some "reduced") none =
      .ok (.obj [("properties", .obj [("Status", .str "Done")])]) ∧
    Json.obj [("Status",
        .obj [("id", .str "s1"), ("type", .str "select"),
              ("select", .obj [("name", .str "Done")])])] ≠
      Json.obj [("Status", .str "Done")] :=
  ⟨rfl, rfl, by simp⟩

/-- Witness for claim C3 (amended) at a concrete object and fields
list: `id` is present and emitted, `missing` is absent and omitted. -/
theorem claim_C3_witness :
    ∃ out, (Json.obj [("id", Json.str "x")]) = Json.obj out ∧
      ∀ k : String,
        ((k ∈ ("id" :: ["missing"]) ∧ jsHasFieldL [("id", Json.str "x")] k = true) →
          ∃ f' v, transformValueF f' (jsIndex (.obj [("id", Json.str "x")]) k) = .ok v ∧
            lookupField out k = some v) ∧
        (¬(k ∈ ("id" :: ["missing"]) ∧ jsHasFieldL [("id", Json.str "x")] k = true) →
          lookupField out k = none) :=
  claim_C3 6 [("id", Json.str "x")] "id" ["missing"] _ rfl

/-! ## Well-formedness for the amended never-throws claim (C2) -/

/-- Test whether a Property Value's discriminator is a given tag. -/
def typeTagIs (p : Json) (tag : String) : Bool :=
  match jsIndex p "type" with
  | .str s => s == tag
  | _ => false

/-- An array payload free of `null`/`undefined` elements (non-arrays
are unconstrained — extraction never maps over them). -/
def elemsNotNullUndef (v : Json) : Bool :=
  match v with
  | .arr xs =>
    xs.all (fun x =>
      match x with
      | .null => false
      | .undefined => false
      | _ => true)
  | _ => true

/-- Sufficient condition for Property Value extraction not to throw:
whenever the discriminator is one of the five array-mapping tags, the
same-named payload array has no `null`/`undefined` elements. -/
def extractSafeB (p : Json) : Bool :=
  !(isObjOrArr p) ||
  ((!typeTagIs p "title" || elemsNotNullUndef (jsIndex p "title")) &&
   (!typeTagIs p "rich_text" || elemsNotNullUndef (jsIndex p "rich_text")) &&
   (!typeTagIs p "multi_select" || elemsNotNullUndef (jsIndex p "multi_select")) &&
   (!typeTagIs p "files" || elemsNotNullUndef (jsIndex p "files")) &&
   (!typeTagIs p "people" || elemsNotNullUndef (jsIndex p "people")))

/-- Sufficient condition for a value used as a properties map not to
make extraction throw: every entry that is a non-null object is
extraction-safe. -/
def propsNodeOk (v : Json) : Bool :=
  (entriesOf v).all (fun kv => !(truthy kv.2 && isObjOrArr kv.2) || extractSafeB kv.2)

/-- Well-formed inputs on which the reduced transform provably never
throws: no `null`/`undefined` elements inside the array payloads of
extraction-mapped Property Values, every object or array in element
position admissible as a properties map, and every `results` array
holding plain objects. -/
inductive SafeJson : Json → Prop where
  | leaf (v : Json) (h : isObjOrArr v = false) : SafeJson v
  | arr (xs : List Json)
      (h1 : ∀ x ∈ xs, SafeJson x)
      (h2 : ∀ x ∈ xs, isObjOrArr x = true → propsNodeOk x = true) :
      SafeJson (.arr xs)
  | obj (fs : List (String × Json))
      (h1 : ∀ kv ∈ fs, SafeJson kv.2)
      (h2 : ∀ kv ∈ fs, kv.1 = "properties" → isObjOrArr kv.2 = true →
            propsNodeOk kv.2 = true)
      (h3 : ∀ rs, lookupField fs "results" = some (.arr rs) →
            ∀ x ∈ rs, ∃ gs, x = .obj gs) :
      SafeJson (.obj fs)

/-- Member access cannot throw on receivers other than null/undefined. -/
theorem jsMemberE_ok (v : Json) (k : String) (h1 : v ≠ .null) (h2 : v ≠ .undefined) :
    jsMemberE v k = .ok (jsIndex v k) := by
  cases v with
  | null => exact absurd rfl h1
  | undefined => exact absurd rfl h2
  | bool b => rfl
  | num n => rfl
  | str s => rfl
  | arr xs => rfl
  | obj fs => rfl

/-- One fragment of a title/rich_text payload is processed without
throwing when the fragment is not null/undefined. -/
theorem textFragmentContent_ok (t : Json) (h1 : t ≠ .null) (h2 : t ≠ .undefined) :
    ∃ c, textFragmentContent t = .ok c := by
  simp only [textFragmentContent, jsMemberE_ok t _ h1 h2, Bind.bind, Except.bind]
  rcases jsIndex t "type" with _ | _ | b | n | s | xs | gs
  · exact ⟨_, rfl⟩
  · exact ⟨_, rfl⟩
  · exact ⟨_, rfl⟩
  · exact ⟨_, rfl⟩
  · by_cases hs : s = "text"
    · simp only [hs, if_pos rfl, jsMemberE_ok t _ h1 h2, Except.bind]
      split_ifs <;> exact ⟨_, rfl⟩
    · simp only [if_neg hs]
      exact ⟨_, rfl⟩
  · exact ⟨_, rfl⟩
  · exact ⟨_, rfl⟩

/-- A list of non-null fragments is processed without throwing. -/
theorem extractTextContents_ok (xs : List Json)
    (h : ∀ x ∈ xs, x ≠ .null ∧ x ≠ .undefined) :
    ∃ ys, extractTextContents xs = .ok ys := by
  induction xs with
  | nil => exact ⟨[], rfl⟩
  | cons t ts ih =>
    obtain ⟨c, hc⟩ := textFragmentContent_ok t (h t (List.mem_cons_self t ts)).1
      (h t (List.mem_cons_self t ts)).2
    obtain ⟨ys, hys⟩ := ih (fun x hx => h x (List.mem_cons_of_mem t hx))
    simp only [extractTextContents, hc, hys, Bind.bind, Except.bind]
    exact ⟨_, rfl⟩

/-- The title/rich_text rule does not throw when the payload array has
no null/undefined elements. -/
theorem extractTextLike_ok (property : Json) (tag : String)
    (h : elemsNotNullUndef (jsIndex property tag) = true) :
    ∃ y, extractTextLike property tag = .ok y := by
  unfold extractTextLike
  rcases hpt : jsIndex property tag with _ | _ | b | n | s | xs | gs
  · exact ⟨_, rfl⟩
  · exact ⟨_, rfl⟩
  · exact ⟨_, rfl⟩
  · exact ⟨_, rfl⟩
  · exact ⟨_, rfl⟩
  · -- array payload
    rw [hpt] at h
    have helems : ∀ x ∈ xs, x ≠ .null ∧ x ≠ .undefined := by
      intro x hx
      have := (List.all_eq_true.mp h) x hx
      rcases x with _ | _ | b | n | s | ys | gs <;> simp_all
    obtain ⟨cs, hcs⟩ := extractTextContents_ok xs helems
    simp only [hcs, Bind.bind, Except.bind]
    rcases xs with _ | ⟨first, rest⟩
    · exact ⟨_, rfl⟩
    · have hf := helems first (List.mem_cons_self first rest)
      simp only [jsMemberE_ok first _ hf.1 hf.2, Except.bind]
      split_ifs <;> exact ⟨_, rfl⟩
  · exact ⟨_, rfl⟩

/-- The multi_select name map does not throw on non-null elements. -/
theorem extractOptionNames_ok (xs : List Json)
    (h : ∀ x ∈ xs, x ≠ .null ∧ x ≠ .undefined) :
    ∃ ys, extractOptionNames xs = .ok ys := by
  induction xs with
  | nil => exact ⟨[], rfl⟩
  | cons s ss ih =>
    obtain ⟨ys, hys⟩ := ih (fun x hx => h x (List.mem_cons_of_mem s hx))
    have hs := h s (List.mem_cons_self s ss)
    simp only [extractOptionNames, jsMemberE_ok s _ hs.1 hs.2, hys, Bind.bind,
      Except.bind]
    exact ⟨_, rfl⟩

/-- The files map does not throw on non-null elements. -/
theorem extractFileEntries_ok (xs : List Json)
    (h : ∀ x ∈ xs, x ≠ .null ∧ x ≠ .undefined) :
    ∃ ys, extractFileEntries xs = .ok ys := by
  induction xs with
  | nil => exact ⟨[], rfl⟩
  | cons f fr ih =>
    obtain ⟨ys, hys⟩ := ih (fun x hx => h x (List.mem_cons_of_mem f hx))
    have hf := h f (List.mem_cons_self f fr)
    simp only [extractFileEntries, jsMemberE_ok f _ hf.1 hf.2, hys, Bind.bind,
      Except.bind]
    exact ⟨_, rfl⟩

/-- The people map does not throw on non-null elements. -/
theorem extractPeopleEntries_ok (xs : List Json)
    (h : ∀ x ∈ xs, x ≠ .null ∧ x ≠ .undefined) :
    ∃ ys, extractPeopleEntries xs = .ok ys := by
  induction xs with
  | nil => exact ⟨[], rfl⟩
  | cons p pr ih =>
    obtain ⟨ys, hys⟩ := ih (fun x hx => h x (List.mem_cons_of_mem p hx))
    have hp := h p (List.mem_cons_self p pr)
    simp only [extractPeopleEntries, jsMemberE_ok p _ hp.1 hp.2, hys, Bind.bind,
      Except.bind]
    exact ⟨_, rfl⟩

/-- Property Value extraction does not throw on extraction-safe
values. -/
theorem extractNotionValue_ok (p : Json) (h : extractSafeB p = true) :
    ∃ y, extractNotionValue p = .ok y := by
  by_cases hg : (truthy p && isObjOrArr p) = true
  · have hobj : isObjOrArr p = true := by
      have hh := hg
      simp only [Bool.and_eq_true] at hh
      exact hh.2
    simp only [extractSafeB, hobj, Bool.not_true, Bool.false_or, Bool.and_eq_true] at h
    obtain ⟨⟨⟨⟨c1, c2⟩, c3⟩, c4⟩, c5⟩ := h
    unfold extractNotionValue
    rw [if_neg (by simp [hg])]
    rcases hty : jsIndex p "type" with _ | _ | b | n | s | xs | gs <;> simp only [hty]
    · exact ⟨_, rfl⟩
    · exact ⟨_, rfl⟩
    · exact ⟨_, rfl⟩
    · exact ⟨_, rfl⟩
    · -- string discriminator
      by_cases h0 : s = ""
      · rw [if_pos h0]; exact ⟨_, rfl⟩
      rw [if_neg h0]
      by_cases h1 : s = "title"
      · rw [if_pos h1]
        refine extractTextLike_ok p "title" ?_
        have ht : typeTagIs p "title" = true := by simp [typeTagIs, hty, h1]
        rw [ht] at c1
        simpa using c1
      rw [if_neg h1]
      by_cases h2 : s = "rich_text"
      · rw [if_pos h2]
        refine extractTextLike_ok p "rich_text" ?_
        have ht : typeTagIs p "rich_text" = true := by simp [typeTagIs, hty, h2]
        rw [ht] at c2
        simpa using c2
      rw [if_neg h2]
      by_cases h3 : s = "select"
      · rw [if_pos h3]; split_ifs <;> exact ⟨_, rfl⟩
      rw [if_neg h3]
      by_cases h4 : s = "multi_select"
      · rw [if_pos h4]
        have ht : typeTagIs p "multi_select" = true := by simp [typeTagIs, hty, h4]
        rw [ht] at c3
        simp only [Bool.not_true, Bool.false_or] at c3
        rcases hms : jsIndex p "multi_select" with _ | _ | b2 | n2 | s2 | ys | gs2 <;>
          simp only [hms] <;> try exact ⟨_, rfl⟩
        rw [hms] at c3
        have helems : ∀ x ∈ ys, x ≠ .null ∧ x ≠ .undefined := by
          intro x hx
          have := (List.all_eq_true.mp c3) x hx
          rcases x with _ | _ | b3 | n3 | s3 | zs | hs3 <;> simp_all
        obtain ⟨ns, hns⟩ := extractOptionNames_ok ys helems
        simp only [hns, Bind.bind, Except.bind]
        exact ⟨_, rfl⟩
      rw [if_neg h4]
      by_cases h5 : s = "date"
      · rw [if_pos h5]; split_ifs <;> exact ⟨_, rfl⟩
      rw [if_neg h5]
      by_cases h6 : s = "number"
      · rw [if_pos h6]; exact ⟨_, rfl⟩
      rw [if_neg h6]
      by_cases h7 : s = "checkbox"
      · rw [if_pos h7]; exact ⟨_, rfl⟩
      rw [if_neg h7]
      by_cases h8 : s = "url"
      · rw [if_pos h8]; exact ⟨_, rfl⟩
      rw [if_neg h8]
      by_cases h9 : s = "email"
      · rw [if_pos h9]; exact ⟨_, rfl⟩
      rw [if_neg h9]
      by_cases h10 : s = "phone_number"
      · rw [if_pos h10]; exact ⟨_, rfl⟩
      rw [if_neg h10]
      by_cases h11 : s = "files"
      · rw [if_pos h11]
        have ht : typeTagIs p "files" = true := by simp [typeTagIs, hty, h11]
        rw [ht] at c4
        simp only [Bool.not_true, Bool.false_or] at c4
        rcases hfs : jsIndex p "files" with _ | _ | b2 | n2 | s2 | ys | gs2 <;>
          simp only [hfs] <;> try exact ⟨_, rfl⟩
        rw [hfs] at c4
        have helems : ∀ x ∈ ys, x ≠ .null ∧ x ≠ .undefined := by
          intro x hx
          have := (List.all_eq_true.mp c4) x hx
          rcases x with _ | _ | b3 | n3 | s3 | zs | hs3 <;> simp_all
        obtain ⟨es, hes⟩ := extractFileEntries_ok ys helems
        simp only [hes, Bind.bind, Except.bind]
        exact ⟨_, rfl⟩
      rw [if_neg h11]
      by_cases h12 : s = "people"
      · rw [if_pos h12]
        have ht : typeTagIs p "people" = true := by simp [typeTagIs, hty, h12]
        rw [ht] at c5
        simp only [Bool.not_true, Bool.false_or] at c5
        rcases hps : jsIndex p "people" with _ | _ | b2 | n2 | s2 | ys | gs2 <;>
          simp only [hps] <;> try exact ⟨_, rfl⟩
        rw [hps] at c5
        have helems : ∀ x ∈ ys, x ≠ .null ∧ x ≠ .undefined := by
          intro x hx
          have := (List.all_eq_true.mp c5) x hx
          rcases x with _ | _ | b3 | n3 | s3 | zs | hs3 <;> simp_all
        obtain ⟨es, hes⟩ := extractPeopleEntries_ok ys helems
        simp only [hes, Bind.bind, Except.bind]
        exact ⟨_, rfl⟩
      rw [if_neg h12]
      by_cases h13 : s = "relation"
      · rw [if_pos h13]
        rcases hrel : jsIndex p "relation" with _ | _ | b2 | n2 | s2 | ys | gs2 <;>
          simp only [hrel] <;> exact ⟨_, rfl⟩
      rw [if_neg h13]
      by_cases h14 : s = "formula"
      · rw [if_pos h14]; split_ifs <;> exact ⟨_, rfl⟩
      rw [if_neg h14]
      by_cases h15 : s = "rollup"
      · rw [if_pos h15]; split_ifs <;> exact ⟨_, rfl⟩
      rw [if_neg h15]
      by_cases h16 : s = "status"
      · rw [if_pos h16]; split_ifs <;> exact ⟨_, rfl⟩
      rw [if_neg h16]
      by_cases h17 : s = "created_time"
      · rw [if_pos h17]; exact ⟨_, rfl⟩
      rw [if_neg h17]
      by_cases h18 : s = "created_by"
      · rw [if_pos h18]; simp only [extractUserRef]; split_ifs <;> exact ⟨_, rfl⟩
      rw [if_neg h18]
      by_cases h19 : s = "last_edited_time"
      · rw [if_pos h19]; exact ⟨_, rfl⟩
      rw [if_neg h19]
      by_cases h20 : s = "last_edited_by"
      · rw [if_pos h20]; simp only [extractUserRef]; split_ifs <;> exact ⟨_, rfl⟩
      rw [if_neg h20]
      by_cases h21 : s = "unique_id"
      · rw [if_pos h21]
        split_ifs <;>
          first
            | exact ⟨_, rfl⟩
            | (rcases hnum : jsIndex (jsIndex p "unique_id") "number" with
                _ | _ | b2 | n2 | s2 | ys | gs2 <;>
                simp only [hnum] <;> exact ⟨_, rfl⟩)
      rw [if_neg h21]
      by_cases h22 : s = "place"
      · rw [if_pos h22]; split_ifs <;> exact ⟨_, rfl⟩
      rw [if_neg h22]
      exact ⟨_, rfl⟩
    · exact ⟨_, rfl⟩
    · exact ⟨_, rfl⟩
  · have hg' : (truthy p && isObjOrArr p) = false := by
      revert hg
      cases truthy p && isObjOrArr p <;> simp
    unfold extractNotionValue
    rw [if_pos (by simp [hg'])]
    exact ⟨_, rfl⟩

theorem jsz_pos (v : Json) : 1 ≤ jsz v := by
  cases v <;> simp [jsz]

theorem jszElems_of_mem {x : Json} : ∀ {xs : List Json}, x ∈ xs → 1 + jsz x ≤ jszElems xs := by
  intro xs
  induction xs with
  | nil => intro h; simp at h
  | cons y ys ih =>
    intro h
    rcases List.mem_cons.mp h with h' | h'
    · subst h'
      simp [jszElems]
    · have := ih h'
      simp only [jszElems]
      omega

theorem jszFields_of_mem {kv : String × Json} :
    ∀ {fs : List (String × Json)}, kv ∈ fs → 1 + jsz kv.2 ≤ jszFields fs := by
  intro fs
  induction fs with
  | nil => intro h; simp at h
  | cons p ps ih =>
    intro h
    rcases List.mem_cons.mp h with h' | h'
    · subst h'
      simp [jszFields]
    · have := ih h'
      simp only [jszFields]
      omega

theorem lookupField_mem (fs : List (String × Json)) (k : String) (v : Json)
    (h : lookupField fs k = some v) : (k, v) ∈ fs := by
  unfold lookupField at h
  rcases hf : fs.find? (fun kv => kv.1 == k) with _ | kv
  · rw [hf] at h; simp at h
  · rw [hf] at h
    simp only [Option.map_some'] at h
    have hmem := List.mem_of_find?_eq_some hf
    have hpred := List.find?_some hf
    simp only [beq_iff_eq] at hpred
    obtain ⟨k0, v0⟩ := kv
    simp only at hpred h
    subst hpred
    obtain rfl : v0 = v := by simpa using h
    exact hmem

theorem jsz_lookupField {fs : List (String × Json)} {k : String} {v : Json}
    (h : lookupField fs k = some v) : 1 + jsz v ≤ jszFields fs :=
  jszFields_of_mem (lookupField_mem fs k v h)

theorem getD_self_or_mem : ∀ (xs : List Json) (i : Nat) (d : Json),
    xs.getD i d = d ∨ xs.getD i d ∈ xs := by
  intro xs
  induction xs with
  | nil => intro i d; left; cases i <;> rfl
  | cons x ys ih =>
    intro i d
    cases i with
    | zero => right; simp [List.getD]
    | succ i =>
      rcases ih i d with h | h
      · left; simpa [List.getD] using h
      · right; simp only [List.getD] at h ⊢
        exact List.mem_cons_of_mem x (by simpa [List.getD] using h)

theorem jszElems_getD : ∀ (xs : List Json) (i : Nat), i < xs.length →
    1 + jsz (xs.getD i .undefined) ≤ jszElems xs := by
  intro xs
  induction xs with
  | nil => intro i h; simp at h
  | cons x ys ih =>
    intro i h
    cases i with
    | zero =>
      simp only [List.getD_cons_zero, jszElems]
      omega
    | succ i =>
      have := ih i (by simpa using h)
      simp only [List.getD_cons_succ, jszElems]
      omega

theorem SafeJson_undefined : SafeJson .undefined := .leaf _ rfl

theorem SafeJson_arr_elem {xs : List Json} (h : SafeJson (.arr xs)) :
    ∀ x ∈ xs, SafeJson x := by
  cases h with
  | leaf _ h0 => simp [isObjOrArr] at h0
  | arr _ h1 h2 => exact h1

theorem SafeJson_arr_props {xs : List Json} (h : SafeJson (.arr xs)) :
    ∀ x ∈ xs, isObjOrArr x = true → propsNodeOk x = true := by
  cases h with
  | leaf _ h0 => simp [isObjOrArr] at h0
  | arr _ h1 h2 => exact h2

theorem SafeJson_obj_values {fs : List (String × Json)} (h : SafeJson (.obj fs)) :
    ∀ kv ∈ fs, SafeJson kv.2 := by
  cases h with
  | leaf _ h0 => simp [isObjOrArr] at h0
  | obj _ h1 h2 h3 => exact h1

theorem SafeJson_obj_props {fs : List (String × Json)} (h : SafeJson (.obj fs)) :
    ∀ kv ∈ fs, kv.1 = "properties" → isObjOrArr kv.2 = true → propsNodeOk kv.2 = true := by
  cases h with
  | leaf _ h0 => simp [isObjOrArr] at h0
  | obj _ h1 h2 h3 => exact h2

theorem SafeJson_obj_results {fs : List (String × Json)} (h : SafeJson (.obj fs)) :
    ∀ rs, lookupField fs "results" = some (.arr rs) → ∀ x ∈ rs, ∃ gs, x = .obj gs := by
  cases h with
  | leaf _ h0 => simp [isObjOrArr] at h0
  | obj _ h1 h2 h3 => exact h3

theorem SafeJson_jsIndex (o : Json) (k : String) (h : SafeJson o) :
    SafeJson (jsIndex o k) := by
  cases o with
  | obj fs =>
    rcases hlk : lookupField fs k with _ | v
    · simp only [jsIndex, hlk, Option.getD_none]
      exact SafeJson_undefined
    · simp only [jsIndex, hlk, Option.getD_some]
      exact SafeJson_obj_values h _ (lookupField_mem fs k v hlk)
  | arr xs =>
    rcases hci : canonicalIndex k with _ | i
    · simp only [jsIndex, hci]
      exact SafeJson_undefined
    · simp only [jsIndex, hci]
      rcases getD_self_or_mem xs i .undefined with h' | h'
      · rw [h']; exact SafeJson_undefined
      · exact SafeJson_arr_elem h _ h'
  | str s =>
    rcases hci : canonicalIndex k with _ | i <;> simp only [jsIndex, hci]
    · exact SafeJson_undefined
    · rcases s.toList.get? i with _ | c
      · exact SafeJson_undefined
      · exact .leaf _ rfl
  | null => exact SafeJson_undefined
  | undefined => exact SafeJson_undefined
  | bool b => exact SafeJson_undefined
  | num n => exact SafeJson_undefined

theorem entriesOf_arr_snd_mem {xs : List Json} :
    ∀ kv ∈ entriesOf (.arr xs), kv.2 ∈ xs := by
  intro kv hkv
  simp only [entriesOf] at hkv
  obtain ⟨p, hp, rfl⟩ := List.mem_map.mp hkv
  have h2 : p.2 ∈ xs.enum.map Prod.snd := List.mem_map_of_mem _ hp
  rwa [List.enum_map_snd] at h2

theorem jszFields_map_pairs : ∀ (ps : List (Nat × Json)),
    jszFields (ps.map (fun p => (toString p.1, p.2))) = jszElems (ps.map Prod.snd) := by
  intro ps
  induction ps with
  | nil => rfl
  | cons p ps ih => simp [jszFields, jszElems, ih]

theorem jszFields_entriesOf_arr (xs : List Json) :
    jszFields (entriesOf (.arr xs)) = jszElems xs := by
  simp only [entriesOf]
  rw [jszFields_map_pairs, List.enum_map_snd]

theorem transformPropsLoop_ok :
    ∀ (entries acc : List (String × Json)),
      (∀ kv ∈ entries, (truthy kv.2 && isObjOrArr kv.2) = true → extractSafeB kv.2 = true) →
      ∃ out, transformPropsLoop entries acc = .ok out := by
  intro entries
  induction entries with
  | nil => intro acc _; exact ⟨acc, rfl⟩
  | cons kv rest ih =>
    intro acc h
    obtain ⟨name, pv⟩ := kv
    by_cases hp : (truthy pv && isObjOrArr pv) = true
    · obtain ⟨y, hy⟩ := extractNotionValue_ok pv
        (h (name, pv) (List.mem_cons_self _ _) hp)
      obtain ⟨out, hout⟩ := ih (setField acc name y)
        (fun kv hkv => h kv (List.mem_cons_of_mem _ hkv))
      refine ⟨out, ?_⟩
      simp only [transformPropsLoop]
      rw [if_pos hp, hy]
      simpa only [Bind.bind, Except.bind] using hout
    · obtain ⟨out, hout⟩ := ih (setField acc name pv)
        (fun kv hkv => h kv (List.mem_cons_of_mem _ hkv))
      refine ⟨out, ?_⟩
      simp only [transformPropsLoop]
      rw [if_neg hp]
      simpa only [Bind.bind, Except.bind, pure, Except.pure] using hout

theorem transformProperties_ok (v : Json) (h : propsNodeOk v = true) :
    ∃ y, transformProperties v = .ok y := by
  obtain ⟨out, hout⟩ := transformPropsLoop_ok (entriesOf v) [] (by
    intro kv hkv hp
    have hh := (List.all_eq_true.mp h) kv hkv
    rw [hp] at hh
    simpa using hh)
  refine ⟨.obj out, ?_⟩
  simp only [transformProperties, hout, Bind.bind, Except.bind]
  rfl

/-- Master safety lemma: on `SafeJson` inputs, every function of the
fueled reduced transform returns `.ok` once the fuel reaches the
stated linear bound in the input's size (in particular the fuel
supplied by the `transform` wrapper suffices, and the FUEL sentinel is
unreachable there). -/
theorem transformReducedF_ok_of_safe : ∀ fuel : Nat,
    (∀ (d : Json) (fields : Option (List String)), SafeJson d →
      2 * jsz d + fieldsLen fields + 2 ≤ fuel →
      ∃ y, transformReducedF fuel d fields = .ok y) ∧
    (∀ (xs : List Json) (fields : Option (List String)), (∀ x ∈ xs, SafeJson x) →
      2 * jszElems xs + fieldsLen fields + 2 ≤ fuel →
      ∃ ys, transformReducedListF fuel xs fields = .ok ys) ∧
    (∀ (rs : List Json) (fields : Option (List String)),
      (∀ x ∈ rs, SafeJson x ∧ ∃ gs, x = .obj gs) →
      2 * jszElems rs + fieldsLen fields + 2 ≤ fuel →
      ∃ ys, transformResultsF fuel rs fields = .ok ys) ∧
    (∀ (o : Json) (fa : Option (List String)), SafeJson o → isObjOrArr o = true →
      2 * jsz o + fieldsLen fa + 1 ≤ fuel →
      ∃ y, transformObjectF fuel o fa = .ok y) ∧
    (∀ (o : Json) (fsRem : List String) (acc : List (String × Json)),
      SafeJson o → isObjOrArr o = true →
      fsRem.length + 2 * jsz o ≤ fuel →
      ∃ out, transformFieldsLoopF fuel o fsRem acc = .ok out) ∧
    (∀ (entries acc : List (String × Json)),
      (∀ kv ∈ entries, SafeJson kv.2 ∧
        (kv.1 = "properties" → isObjOrArr kv.2 = true → propsNodeOk kv.2 = true)) →
      2 * jszFields entries + 1 ≤ fuel →
      ∃ out, transformEntriesLoopF fuel entries acc = .ok out) ∧
    (∀ v : Json, SafeJson v → 2 * jsz v + 2 ≤ fuel →
      ∃ y, transformValueF fuel v = .ok y) ∧
    (∀ xs : List Json, (∀ x ∈ xs, SafeJson x) → 2 * jszElems xs + 1 ≤ fuel →
      ∃ ys, transformValueListF fuel xs = .ok ys) := by
  intro fuel
  induction fuel with
  | zero =>
    refine ⟨?_, ?_, ?_, ?_, ?_, ?_, ?_, ?_⟩
    · intro d fields _ hb
      exact absurd hb (by omega)
    · intro xs fields _ hb
      exact absurd hb (by omega)
    · intro rs fields _ hb
      exact absurd hb (by omega)
    · intro o fa _ _ hb
      exact absurd hb (by omega)
    · intro o fsRem acc _ _ hb
      exact absurd hb (by have := jsz_pos o; omega)
    · intro entries acc _ hb
      exact absurd hb (by omega)
    · intro v _ hb
      exact absurd hb (by omega)
    · intro xs _ hb
      exact absurd hb (by omega)
  | succ fuel ih =>
    obtain ⟨ihR, ihRL, ihOR, ihO, ihFL, ihEL, ihV, ihVL⟩ := ih
    refine ⟨?_, ?_, ?_, ?_, ?_, ?_, ?_, ?_⟩
    -- transformReducedF
    · intro d fields hsafe hb
      cases d with
      | null => exact ⟨_, rfl⟩
      | undefined => exact ⟨_, rfl⟩
      | bool b => exact ⟨_, rfl⟩
      | num n => exact ⟨_, rfl⟩
      | str s => exact ⟨_, rfl⟩
      | arr xs =>
        have e1 : jsz (Json.arr xs) = 1 + jszElems xs := rfl
        obtain ⟨ys, hys⟩ := ihRL xs fields (SafeJson_arr_elem hsafe) (by omega)
        refine ⟨.arr ys, ?_⟩
        simp only [transformReducedF, hys, Bind.bind, Except.bind]
        rfl
      | obj fs =>
        have e1 : jsz (Json.obj fs) = 1 + jszFields fs := rfl
        rcases hres : lookupField fs "results" with _ | v
        · obtain ⟨y, hy⟩ := ihO (.obj fs) fields hsafe rfl (by omega)
          refine ⟨y, ?_⟩
          simp only [transformReducedF, hres]
          exact hy
        · rcases v with _ | _ | b | n | s | rs | gs
          · obtain ⟨y, hy⟩ := ihO (.obj fs) fields hsafe rfl (by omega)
            exact ⟨y, by simp only [transformReducedF, hres]; exact hy⟩
          · obtain ⟨y, hy⟩ := ihO (.obj fs) fields hsafe rfl (by omega)
            exact ⟨y, by simp only [transformReducedF, hres]; exact hy⟩
          · obtain ⟨y, hy⟩ := ihO (.obj fs) fields hsafe rfl (by omega)
            exact ⟨y, by simp only [transformReducedF, hres]; exact hy⟩
          · obtain ⟨y, hy⟩ := ihO (.obj fs) fields hsafe rfl (by omega)
            exact ⟨y, by simp only [transformReducedF, hres]; exact hy⟩
          · obtain ⟨y, hy⟩ := ihO (.obj fs) fields hsafe rfl (by omega)
            exact ⟨y, by simp only [transformReducedF, hres]; exact hy⟩
          · -- pagination envelope
            have hmem : ("results", Json.arr rs) ∈ fs := lookupField_mem _ _ _ hres
            have hsafeRs : SafeJson (.arr rs) := SafeJson_obj_values hsafe _ hmem
            have hitems : ∀ x ∈ rs, SafeJson x ∧ ∃ gs, x = .obj gs := fun x hx =>
              ⟨SafeJson_arr_elem hsafeRs x hx, SafeJson_obj_results hsafe rs hres x hx⟩
            have hsz : 1 + jsz (Json.arr rs) ≤ jszFields fs := jsz_lookupField hres
            have e2 : jsz (Json.arr rs) = 1 + jszElems rs := rfl
            obtain ⟨ys, hys⟩ := ihOR rs fields hitems (by omega)
            refine ⟨.obj (extractMetadata fs ++ [("results", .arr ys)]), ?_⟩
            simp only [transformReducedF, hres, hys, Bind.bind, Except.bind]
            rfl
          · obtain ⟨y, hy⟩ := ihO (.obj fs) fields hsafe rfl (by omega)
            exact ⟨y, by simp only [transformReducedF, hres]; exact hy⟩
    -- transformReducedListF
    · intro xs fields hsafe hb
      cases xs with
      | nil => exact ⟨[], rfl⟩
      | cons x rest =>
        have e1 : jszElems (x :: rest) = 1 + jsz x + jszElems rest := rfl
        obtain ⟨y, hy⟩ := ihR x fields (hsafe x (List.mem_cons_self _ _)) (by omega)
        obtain ⟨ys, hys⟩ := ihRL rest fields
          (fun z hz => hsafe z (List.mem_cons_of_mem _ hz)) (by omega)
        refine ⟨y :: ys, ?_⟩
        simp only [transformReducedListF, hy, hys, Bind.bind, Except.bind]
        rfl
    -- transformResultsF
    · intro rs fields hitems hb
      cases rs with
      | nil => exact ⟨[], rfl⟩
      | cons x rest =>
        have e1 : jszElems (x :: rest) = 1 + jsz x + jszElems rest := rfl
        obtain ⟨hsafeX, gs, rfl⟩ := hitems x (List.mem_cons_self _ _)
        obtain ⟨y, hy⟩ := ihO (.obj gs) fields hsafeX rfl (by omega)
        obtain ⟨ys, hys⟩ := ihOR rest fields
          (fun z hz => hitems z (List.mem_cons_of_mem _ hz)) (by omega)
        refine ⟨y :: ys, ?_⟩
        simp only [transformResultsF, hy, hys, Bind.bind, Except.bind]
        rfl
    -- transformObjectF
    · intro o fa hsafe hobj hb
      rcases fa with _ | ⟨_ | ⟨f0, fsRest⟩⟩
      · -- fields absent: default pass
        cases o with
        | null => simp [isObjOrArr] at hobj
        | undefined => simp [isObjOrArr] at hobj
        | bool b => simp [isObjOrArr] at hobj
        | num n => simp [isObjOrArr] at hobj
        | str s => simp [isObjOrArr] at hobj
        | obj fs =>
          have e1 : jsz (Json.obj fs) = 1 + jszFields fs := rfl
          obtain ⟨out, hout⟩ := ihEL fs []
            (fun kv hkv => ⟨SafeJson_obj_values hsafe kv hkv,
              fun h1 h2 => SafeJson_obj_props hsafe kv hkv h1 h2⟩)
            (by simp only [fieldsLen] at hb; omega)
          refine ⟨.obj out, ?_⟩
          simp only [transformObjectF, jsEntriesE, entriesOf, hout, Bind.bind, Except.bind]
          rfl
        | arr xs =>
          have e1 : jsz (Json.arr xs) = 1 + jszElems xs := rfl
          have e2 := jszFields_entriesOf_arr xs
          obtain ⟨out, hout⟩ := ihEL (entriesOf (.arr xs)) []
            (fun kv hkv => by
              have hm := entriesOf_arr_snd_mem kv hkv
              exact ⟨SafeJson_arr_elem hsafe _ hm,
                fun _ h2 => SafeJson_arr_props hsafe _ hm h2⟩)
            (by simp only [fieldsLen] at hb; omega)
          refine ⟨.obj out, ?_⟩
          simp only [transformObjectF, jsEntriesE, hout, Bind.bind, Except.bind]
          rfl
      · -- fields present but empty: default pass as well
        cases o with
        | null => simp [isObjOrArr] at hobj
        | undefined => simp [isObjOrArr] at hobj
        | bool b => simp [isObjOrArr] at hobj
        | num n => simp [isObjOrArr] at hobj
        | str s => simp [isObjOrArr] at hobj
        | obj fs =>
          have e1 : jsz (Json.obj fs) = 1 + jszFields fs := rfl
          obtain ⟨out, hout⟩ := ihEL fs []
            (fun kv hkv => ⟨SafeJson_obj_values hsafe kv hkv,
              fun h1 h2 => SafeJson_obj_props hsafe kv hkv h1 h2⟩)
            (by simp only [fieldsLen] at hb; omega)
          refine ⟨.obj out, ?_⟩
          simp only [transformObjectF, jsEntriesE, entriesOf, hout, Bind.bind, Except.bind]
          rfl
        | arr xs =>
          have e1 : jsz (Json.arr xs) = 1 + jszElems xs := rfl
          have e2 := jszFields_entriesOf_arr xs
          obtain ⟨out, hout⟩ := ihEL (entriesOf (.arr xs)) []
            (fun kv hkv => by
              have hm := entriesOf_arr_snd_mem kv hkv
              exact ⟨SafeJson_arr_elem hsafe _ hm,
                fun _ h2 => SafeJson_arr_props hsafe _ hm h2⟩)
            (by simp only [fieldsLen] at hb; omega)
          refine ⟨.obj out, ?_⟩
          simp only [transformObjectF, jsEntriesE, hout, Bind.bind, Except.bind]
          rfl
      · -- non-empty fields whitelist
        have e1 : fieldsLen (some (f0 :: fsRest)) = fsRest.length + 1 := by
          simp [fieldsLen]
        obtain ⟨out, hout⟩ := ihFL o (f0 :: fsRest) [] hsafe hobj
          (by simp only [List.length_cons]; omega)
        refine ⟨.obj out, ?_⟩
        simp only [transformObjectF, hout, Bind.bind, Except.bind]
        rfl
    -- transformFieldsLoopF
    · intro o fsRem acc hsafe hobj hb
      induction fsRem generalizing acc with
      | nil => exact ⟨acc, rfl⟩
      | cons field rest ihrest =>
        have e0 : (field :: rest).length = rest.length + 1 := rfl
        cases o with
        | null => simp [isObjOrArr] at hobj
        | undefined => simp [isObjOrArr] at hobj
        | bool b => simp [isObjOrArr] at hobj
        | num n => simp [isObjOrArr] at hobj
        | str s => simp [isObjOrArr] at hobj
        | obj fs =>
          have e1 : jsz (Json.obj fs) = 1 + jszFields fs := rfl
          by_cases hbf : jsHasFieldL fs field = true
          · rcases hlf : lookupField fs field with _ | v
            · rw [jsHasFieldL, hlf] at hbf
              simp at hbf
            · have hvsz : 1 + jsz v ≤ jszFields fs := jsz_lookupField hlf
              have hidx : jsIndex (.obj fs) field = v := by
                simp [jsIndex, hlf]
              obtain ⟨y, hy⟩ := ihV v
                (by rw [← hidx]; exact SafeJson_jsIndex _ _ hsafe) (by omega)
              obtain ⟨out, hout⟩ := ihFL (.obj fs) rest (setField acc field y)
                hsafe rfl (by omega)
              refine ⟨out, ?_⟩
              simp only [transformFieldsLoopF, jsHasFieldE, Bind.bind, Except.bind]
              rw [if_pos hbf, hidx, hy]
              simpa only [Except.bind] using hout
          · obtain ⟨out, hout⟩ := ihFL (.obj fs) rest acc hsafe rfl (by omega)
            refine ⟨out, ?_⟩
            simp only [transformFieldsLoopF, jsHasFieldE, Bind.bind, Except.bind]
            rw [if_neg hbf]
            exact hout
        | arr xs =>
          have e1 : jsz (Json.arr xs) = 1 + jszElems xs := rfl
          rcases hci : canonicalIndex field with _ | i
          · obtain ⟨out, hout⟩ := ihFL (.arr xs) rest acc hsafe rfl (by omega)
            refine ⟨out, ?_⟩
            simp only [transformFieldsLoopF, jsHasFieldE, hci, Bind.bind, Except.bind]
            rw [if_neg (by simp)]
            exact hout
          · by_cases hblt : Nat.blt i xs.length = true
            · have hlt : i < xs.length := by
                simpa [Nat.blt_eq] using hblt
              have hvsz := jszElems_getD xs i hlt
              have hidx : jsIndex (.arr xs) field = xs.getD i .undefined := by
                simp [jsIndex, hci]
              obtain ⟨y, hy⟩ := ihV (xs.getD i .undefined)
                (by rw [← hidx]; exact SafeJson_jsIndex _ _ hsafe) (by omega)
              obtain ⟨out, hout⟩ := ihFL (.arr xs) rest (setField acc field y)
                hsafe rfl (by omega)
              refine ⟨out, ?_⟩
              simp only [transformFieldsLoopF, jsHasFieldE, hci, Bind.bind, Except.bind]
              rw [if_pos hblt, hidx, hy]
              simpa only [Except.bind] using hout
            · obtain ⟨out, hout⟩ := ihFL (.arr xs) rest acc hsafe rfl (by omega)
              refine ⟨out, ?_⟩
              simp only [transformFieldsLoopF, jsHasFieldE, hci, Bind.bind, Except.bind]
              rw [if_neg hblt]
              exact hout
    -- transformEntriesLoopF
    · intro entries acc hfacts hb
      cases entries with
      | nil => exact ⟨acc, rfl⟩
      | cons kv rest =>
        obtain ⟨key, value⟩ := kv
        have e1 : jszFields ((key, value) :: rest) = 1 + jsz value + jszFields rest := rfl
        have hkv := hfacts (key, value) (List.mem_cons_self _ _)
        have hrest : ∀ kv ∈ rest, SafeJson kv.2 ∧
            (kv.1 = "properties" → isObjOrArr kv.2 = true → propsNodeOk kv.2 = true) :=
          fun kv hkv => hfacts kv (List.mem_cons_of_mem _ hkv)
        by_cases hmeta : isMetadataField key = true
        · obtain ⟨out, hout⟩ := ihEL rest (setField acc key value) hrest (by omega)
          refine ⟨out, ?_⟩
          simp only [transformEntriesLoopF]
          rw [if_pos hmeta]
          exact hout
        · by_cases hprop : (key == "properties" && isObjOrArr value) = true
          · have hkey : key = "properties" := by
              simp only [Bool.and_eq_true, beq_iff_eq] at hprop
              exact hprop.1
            have hioa : isObjOrArr value = true := by
              simp only [Bool.and_eq_true] at hprop
              exact hprop.2
            obtain ⟨p, hp⟩ := transformProperties_ok value (hkv.2 hkey hioa)
            obtain ⟨out, hout⟩ := ihEL rest (setField acc key p) hrest (by omega)
            refine ⟨out, ?_⟩
            simp only [transformEntriesLoopF]
            rw [if_neg hmeta, if_pos hprop, hp]
            simpa only [Bind.bind, Except.bind] using hout
          · obtain ⟨y, hy⟩ := ihV value hkv.1 (by omega)
            obtain ⟨out, hout⟩ := ihEL rest (setField acc key y) hrest (by omega)
            refine ⟨out, ?_⟩
            simp only [transformEntriesLoopF]
            rw [if_neg hmeta, if_neg hprop, hy]
            simpa only [Bind.bind, Except.bind] using hout
    -- transformValueF
    · intro v hsafe hbv
      cases v with
      | null => exact ⟨_, rfl⟩
      | undefined => exact ⟨_, rfl⟩
      | bool b => exact ⟨_, rfl⟩
      | num n => exact ⟨_, rfl⟩
      | str s => exact ⟨_, rfl⟩
      | arr xs =>
        have e1 : jsz (Json.arr xs) = 1 + jszElems xs := rfl
        obtain ⟨ys, hys⟩ := ihVL xs (SafeJson_arr_elem hsafe) (by omega)
        refine ⟨.arr ys, ?_⟩
        simp only [transformValueF, hys, Bind.bind, Except.bind]
        rfl
      | obj fs =>
        obtain ⟨y, hy⟩ := ihO (.obj fs) none hsafe rfl
          (by simp only [fieldsLen]; omega)
        refine ⟨y, ?_⟩
        simp only [transformValueF]
        exact hy
    -- transformValueListF
    · intro xs hsafe hb
      cases xs with
      | nil => exact ⟨[], rfl⟩
      | cons item rest =>
        have e1 : jszElems (item :: rest) = 1 + jsz item + jszElems rest := rfl
        obtain ⟨ys, hys⟩ := ihVL rest
          (fun z hz => hsafe z (List.mem_cons_of_mem _ hz)) (by omega)
        by_cases hio : (truthy item && isObjOrArr item) = true
        · obtain ⟨y, hy⟩ := ihO item none (hsafe item (List.mem_cons_self _ _))
            (by simp only [Bool.and_eq_true] at hio; exact hio.2)
            (by simp only [fieldsLen]; omega)
          refine ⟨y :: ys, ?_⟩
          simp only [transformValueListF, Bind.bind, Except.bind]
          rw [if_pos hio, hy]
          simp only [hys, Except.bind]
          rfl
        · refine ⟨item :: ys, ?_⟩
          simp only [transformValueListF, Bind.bind, Except.bind]
          rw [if_neg hio]
          simp only [pure, Except.pure, hys, Except.bind]

/-- Bool form of the properties-admissibility condition on an object's
fields, for deciding `SafeJson` side conditions on concrete inputs. -/
def fieldsPropsOkB (fs : List (String × Json)) : Bool :=
  fs.all (fun kv => !(kv.1 == "properties" && isObjOrArr kv.2) || propsNodeOk kv.2)

/-- Bool form of the results-are-objects condition on an object's
fields, for deciding `SafeJson` side conditions on concrete inputs. -/
def resultsAllObjB (fs : List (String × Json)) : Bool :=
  match lookupField fs "results" with
  | some (.arr rs) => rs.all (fun x => match x with | .obj _ => true | _ => false)
  | _ => true

/-- Introduction rule for `SafeJson` on objects with the two side
conditions in decidable Bool form. -/
theorem SafeJson_obj_of (fs : List (String × Json))
    (h1 : ∀ kv ∈ fs, SafeJson kv.2)
    (h2 : fieldsPropsOkB fs = true)
    (h3 : resultsAllObjB fs = true) :
    SafeJson (.obj fs) := by
  refine SafeJson.obj _ h1 ?_ ?_
  · intro kv hkv hk hio
    have hh := (List.all_eq_true.mp h2) kv hkv
    simp [hk, hio] at hh
    exact hh
  · intro rs hrs x hx
    unfold resultsAllObjB at h3
    rw [hrs] at h3
    have hh := (List.all_eq_true.mp h3) x hx
    cases x with
    | obj gs => exact ⟨gs, rfl⟩
    | null => exact Bool.noConfusion hh
    | undefined => exact Bool.noConfusion hh
    | bool b => exact Bool.noConfusion hh
    | num n => exact Bool.noConfusion hh
    | str s => exact Bool.noConfusion hh
    | arr ys => exact Bool.noConfusion hh

/-- A page whose title payload array contains a null element; the
reduced transform maps `t.type` over that array and throws. -/
def c2Input : Json :=
  .obj [("properties", .obj [("Name",
    .obj [("type", .str "title"), ("title", .arr [.null])])])]

/-- Claim C2 counterexample: the Value Normalizer does have an error
path — on a title array holding null, reduced-mode transform throws a
TypeError (reading `.type` of null) instead of returning. -/
theorem claim_C2_counterexample :
    transform "full" c2Input (some "reduced") none =
      .error "TypeError: Cannot read properties of null (reading type)" := rfl

/-- Claim C2 (amended): for every mode and optional fields list, the
transform returns without throwing provided the input is well-formed in
the `SafeJson` sense — no null/undefined elements in the payload arrays
of the five array-mapping Property Value tags, results elements plain
objects, and objects in element position admissible as properties maps.
The modes full, success_only and unknown are pure; reduced is the fuel
master lemma at the fuel supplied by the wrapper. -/
theorem claim_C2 (defaultMode : String) (data : Json) (mode : Option String)
    (fields : Option (List String)) (hsafe : SafeJson data) :
    ∃ y, transform defaultMode data mode fields = .ok y := by
  have hgoal : transform defaultMode data mode fields =
      (if mode.getD defaultMode = "full" then pure data
       else if mode.getD defaultMode = "success_only" then
         pure (transformSuccessOnly data)
       else if mode.getD defaultMode = "reduced" then
         transformReducedF (transformFuel data fields) data fields
       else pure data) := rfl
  rw [hgoal]
  by_cases h1 : mode.getD defaultMode = "full"
  · rw [if_pos h1]
    exact ⟨data, rfl⟩
  · rw [if_neg h1]
    by_cases h2 : mode.getD defaultMode = "success_only"
    · rw [if_pos h2]
      exact ⟨transformSuccessOnly data, rfl⟩
    · rw [if_neg h2]
      by_cases h3 : mode.getD defaultMode = "reduced"
      · rw [if_pos h3]
        exact (transformReducedF_ok_of_safe (transformFuel data fields)).1
          data fields hsafe (by simp [transformFuel])
      · rw [if_neg h3]
        exact ⟨data, rfl⟩

/-- A well-formed page response used to instantiate claim C2. -/
def c2WitnessInput : Json :=
  .obj [("object", .str "page"), ("id", .str "p1"),
    ("properties", .obj [("Status",
      .obj [("type", .str "select"), ("select", .obj [("name", .str "Done")])])])]

/-- Witness for claim C2: the safety theorem applied to a concrete
well-formed page in reduced mode. -/
theorem claim_C2_witness :
    ∃ y, transform "full" c2WitnessInput (some "reduced") none = .ok y :=
  claim_C2 "full" c2WitnessInput (some "reduced") none (by
    refine SafeJson_obj_of _ ?_ (by decide) (by decide)
    intro kv hkv
    simp only [List.mem_cons, List.not_mem_nil, or_false] at hkv
    rcases hkv with rfl | rfl | rfl
    · exact SafeJson.leaf _ rfl
    · exact SafeJson.leaf _ rfl
    · refine SafeJson_obj_of _ ?_ (by decide) (by decide)
      intro kv hkv
      simp only [List.mem_cons, List.not_mem_nil, or_false] at hkv
      rcases hkv with rfl
      refine SafeJson_obj_of _ ?_ (by decide) (by decide)
      intro kv hkv
      simp only [List.mem_cons, List.not_mem_nil, or_false] at hkv
      rcases hkv with rfl | rfl
      · exact SafeJson.leaf _ rfl
      · refine SafeJson_obj_of _ ?_ (by decide) (by decide)
        intro kv hkv
        simp only [List.mem_cons, List.not_mem_nil, or_false] at hkv
        rcases hkv with rfl
        exact SafeJson.leaf _ rfl)

end NotionMCP
